import Mathlib

/-!
Verification development for the task-queue reconciliation engine of the
boxen orchestrator.  The definitions below are a shallow embedding of
.orchestrator/scripts/diagnose_queue_health.py, accept_all.py and
diagnose_provisional.py.  The filesystem (queue directories of mirror
files), the sqlite store (tasks and task_history tables), the per-agent
runtime state files and the queue-manager action log are modelled as one
explicit World record; every script operation is a pure function on it.
Machine timestamps are modelled as integer epoch seconds; a stored
timestamp string together with the result of datetime.fromisoformat is
modelled by the TStamp record (parsed = none models a parse failure).
Log message text (human-readable sentences with float formatting) is
elided: a log entry keeps its fix type and the task id it concerns.
-/

namespace Boxen

/-- Stored timestamp string paired with the result of
datetime.fromisoformat on it (none when parsing raises). -/
structure TStamp where
  raw : String
  parsed : Option Int
deriving DecidableEq, Repr

/-- Mirror file on disk: modification time and content, the content
split into its lines (the Python code joins them with a newline). -/
structure MFile where
  mtime : Int
  lines : List String
deriving DecidableEq, Repr

/-- One mirror file entry in the filesystem: directory name, the task id
taken from the TASK-<id>.md filename, and the file itself. -/
structure FEntry where
  dir : String
  tid : String
  file : MFile
deriving DecidableEq, Repr

/-- Row of the tasks table (the fields the diagnosed scripts read). -/
structure Task where
  id : String
  queue : String
  claimed_by : Option String
  claimed_at : Option TStamp
  attempt_count : Nat
  role : String
  priority : String
  branch : String
  blocked_by : Option String
  project_id : Option String
deriving DecidableEq, Repr

/-- Row of the append-only task_history table. -/
structure HEvent where
  task_id : String
  event : String
  actor : String
  details : String
deriving DecidableEq, Repr

/-- Content of an agent runtime state.json file; last_finished = none
models both a missing and a falsy (empty) last_finished field. -/
structure AgentFile where
  last_finished : Option TStamp
deriving DecidableEq, Repr

/-- Queue-manager action log entry; the formatted message text is
elided, keeping the fix type and the task id the entry concerns. -/
structure LogEntry where
  fixType : String
  task_id : String
deriving DecidableEq, Repr

/-- Whole mutable state touched by the diagnosis scripts: queue-dir
mirror files, the tasks and task_history tables, agent runtime state
files (keyed by agent name; presence in the list models an existing
state.json), the quarantine directory, the action log, and the wall
clock (datetime.now) as integer epoch seconds. -/
structure World where
  files : List FEntry
  tasks : List Task
  history : List HEvent
  agents : List (String × AgentFile)
  quarantine : List FEntry
  log : List LogEntry
  now : Int
deriving DecidableEq, Repr

/-- FileMismatch issue dict of diagnose_queue_health.py; the file path
is determined by (file_queue, task_id) since the filename is
TASK-<task_id>.md inside the file_queue directory. -/
structure FileMismatch where
  task_id : String
  db_queue : String
  file_queue : String
  age_seconds : Int
deriving DecidableEq, Repr

/-- OrphanFile issue dict of diagnose_queue_health.py. -/
structure OrphanFile where
  task_id : String
  file_queue : String
  age_seconds : Int
deriving DecidableEq, Repr

/-- ZombieClaim issue dict of diagnose_queue_health.py. -/
structure ZombieClaim where
  task_id : String
  claimed_by : String
  claimed_at : String
  claim_duration_seconds : Int
  agent_last_active : Option String
  agent_inactive_seconds : Option Int
deriving DecidableEq, Repr

/-- DiagnosticResult dict of run_diagnostics (timestamp elided). -/
structure DiagnosticResult where
  file_db_mismatches : List FileMismatch
  orphan_files : List OrphanFile
  zombie_claims : List ZombieClaim
deriving DecidableEq, Repr

/-- Counts dict returned by run_auto_fixes. -/
structure FixCounts where
  file_db_syncs : Nat
  orphans_registered : Nat
  stale_errors_cleaned : Nat
  zombies_escalated : Nat
deriving DecidableEq, Repr

/-- Metadata dict produced by parse_task_metadata on success: title and
role are guaranteed present, the remaining header fields are optional. -/
structure TaskMeta where
  title : String
  role : String
  priority : Option String
  branch : Option String
  created : Option String
  created_by : Option String
  project : Option String
  blocked_by : Option String
  checks : Option String
deriving DecidableEq, Repr

/-- MIN_FILE_AGE_SECONDS threshold constant (5 minutes). -/
def MIN_FILE_AGE_SECONDS : Int := 300

/-- ZOMBIE_CLAIM_HOURS threshold constant. -/
def ZOMBIE_CLAIM_HOURS : Int := 2

/-- AGENT_INACTIVE_HOURS threshold constant. -/
def AGENT_INACTIVE_HOURS : Int := 1

/-- Modelled from the spec: ALL_QUEUE_DIRS of orchestrator.queue_utils
(module not under src); the spec fixes the set of queue directories as
incoming, claimed, breakdown, provisional, done, failed, escalated,
recycled, needs_continuation. -/
def ALL_QUEUE_DIRS : List String :=
  ["incoming", "claimed", "breakdown", "provisional", "done",
   "failed", "escalated", "recycled", "needs_continuation"]

/-- Files of one queue directory, in directory scan order. -/
def filesIn (fs : List FEntry) (d : String) : List FEntry :=
  fs.filter (fun e => e.dir = d)

/-- Python dict insertion: replace the value in place when the key is
already present, otherwise append the binding at the end. -/
def dinsert (m : List (String × String × MFile)) (k : String) (v : String × MFile) :
    List (String × String × MFile) :=
  if m.any (fun p => p.1 = k) then
    m.map (fun p => if p.1 = k then (k, v) else p)
  else
    m ++ [(k, v)]

/-- Python dict lookup (first binding with the key; bindings built by
dinsert have pairwise distinct keys). -/
def dlookup (m : List (String × String × MFile)) (k : String) : Option (String × MFile) :=
  (m.find? (fun p => p.1 = k)).map (fun p => p.2)

/-- Inner loop of find_all_task_files over one queue directory. -/
def addDir (d : String) : List FEntry → List (String × String × MFile) →
    List (String × String × MFile)
  | [], m => m
  | e :: es, m => addDir d es (dinsert m e.tid (d, e.file))

/-- Outer loop of find_all_task_files over the queue directories. -/
def findAllGo (fs : List FEntry) : List String → List (String × String × MFile) →
    List (String × String × MFile)
  | [], m => m
  | d :: ds, m => findAllGo fs ds (addDir d (filesIn fs d) m)

/-- find_all_task_files: scan all queue directories and map each task id
to the (queue name, file) pair; a later directory in ALL_QUEUE_DIRS
silently overwrites an earlier one for the same task id. -/
def find_all_task_files (fs : List FEntry) : List (String × String × MFile) :=
  findAllGo fs ALL_QUEUE_DIRS []

/-- get_file_age_seconds: seconds since last modification. -/
def get_file_age_seconds (now : Int) (f : MFile) : Int :=
  now - f.mtime

/-- Queue recorded in the tasks table for a task id; iterating the
SELECT cursor into a dict means a later row with the same id wins. -/
def dbQueue (tasks : List Task) (tid : String) : Option String :=
  tasks.foldl (fun acc t => if t.id = tid then some t.queue else acc) none

/-- Membership of a task id in the tasks table. -/
def dbHasId (tasks : List Task) (tid : String) : Bool :=
  tasks.any (fun t => t.id = tid)

/-- detect_file_db_mismatches: tasks whose file location differs from
the database queue, reported only when the file is old enough. -/
def detect_file_db_mismatches (min_age_seconds : Int) (w : World) : List FileMismatch :=
  (find_all_task_files w.files).filterMap (fun p =>
    match dbQueue w.tasks p.1 with
    | none => none
    | some dq =>
      if p.2.1 = dq then none
      else if min_age_seconds ≤ get_file_age_seconds w.now p.2.2 then
        some ⟨p.1, dq, p.2.1, get_file_age_seconds w.now p.2.2⟩
      else none)

/-- detect_orphan_files: files whose task id has no database record,
reported only when the file is old enough. -/
def detect_orphan_files (min_age_seconds : Int) (w : World) : List OrphanFile :=
  (find_all_task_files w.files).filterMap (fun p =>
    if dbHasId w.tasks p.1 then none
    else if min_age_seconds ≤ get_file_age_seconds w.now p.2.2 then
      some ⟨p.1, p.2.1, get_file_age_seconds w.now p.2.2⟩
    else none)

/-- Agent activity lookup of detect_zombie_claims: returns the
agent_last_active string and agent_inactive_seconds exactly as the
Python code computes them from the agent state file. -/
def agentActivity (w : World) (a : String) : Option String × Option Int :=
  match (w.agents.find? (fun p => p.1 = a)).map (fun p => p.2) with
  | none => (none, none)
  | some af =>
    match af.last_finished with
    | none => (none, none)
    | some lf =>
      match lf.parsed with
      | none => (some lf.raw, none)
      | some la => (some lf.raw, some (w.now - la))

/-- detect_zombie_claims: tasks in queue claimed, with claimed_by and a
parseable claimed_at older than the claim threshold, whose agent
activity record is missing or stale beyond the inactivity threshold. -/
def detect_zombie_claims (claim_hours inactive_hours : Int) (w : World) : List ZombieClaim :=
  w.tasks.filterMap (fun t =>
    if t.queue = "claimed" then
      match t.claimed_by, t.claimed_at with
      | some a, some ts =>
        match ts.parsed with
        | none => none
        | some ct =>
          if w.now - ct < claim_hours * 3600 then none
          else
            match agentActivity w a with
            | (lastA, none) => some ⟨t.id, a, ts.raw, w.now - ct, lastA, none⟩
            | (lastA, some s) =>
              if inactive_hours * 3600 ≤ s then
                some ⟨t.id, a, ts.raw, w.now - ct, lastA, some s⟩
              else none
      | _, _ => none
    else none)

/-- run_diagnostics: the three detectors at their default thresholds. -/
def run_diagnostics (w : World) : DiagnosticResult :=
  ⟨detect_file_db_mismatches MIN_FILE_AGE_SECONDS w,
   detect_orphan_files MIN_FILE_AGE_SECONDS w,
   detect_zombie_claims ZOMBIE_CLAIM_HOURS AGENT_INACTIVE_HOURS w⟩

/-- ASCII apostrophe, used when rebuilding logged message text. -/
def apos : String := String.singleton (Char.ofNat 39)

/-- history_details string of fix_file_db_mismatch. -/
def mkSyncDetails (dbq fq : String) : String :=
  "Synced DB queue from " ++ apos ++ dbq ++ apos ++ " to " ++ apos ++ fq ++
    apos ++ " to match file location"

/-- Python str.strip over characters: remove leading and trailing
whitespace. -/
def stripChars (cs : List Char) : List Char :=
  ((cs.dropWhile Char.isWhitespace).reverse.dropWhile Char.isWhitespace).reverse

/-- Characters up to the first right bracket: returns the characters
before it and the characters after it, or none when absent. -/
def takeUntilRB : List Char → Option (List Char × List Char)
  | [] => none
  | c :: cs =>
    if c = ']' then some ([], cs)
    else (takeUntilRB cs).map (fun p => (c :: p.1, p.2))

/-- Match of one line against the title pattern of parse_task_metadata,
a hash, a space, then [TASK-<nonempty no-bracket id>] a space and a
nonempty stripped title. -/
def titleOfLine (l : String) : Option String :=
  let pre : List Char := ("# [TASK-").data
  if pre.isPrefixOf l.data then
    match takeUntilRB (l.data.drop 8) with
    | none => none
    | some (x, rest) =>
      if x = [] then none
      else
        match rest with
        | ' ' :: ys => if ys = [] then none else some (String.mk (stripChars ys))
        | _ => none
  else none

/-- Match of one line against the header-field pattern FIELD: value of
parse_task_metadata, the value nonempty and stripped. -/
def fieldOfLine (field : String) (l : String) : Option String :=
  let pre : List Char := (field ++ (": ")).data
  if pre.isPrefixOf l.data then
    let rest := l.data.drop pre.length
    if rest = [] then none else some (String.mk (stripChars rest))
  else none

/-- First line of the content matched by a line matcher; models
re.search with re.MULTILINE over the joined content. -/
def findFirst (f : String → Option String) : List String → Option String
  | [] => none
  | l :: ls =>
    match f l with
    | some v => some v
    | none => findFirst f ls

/-- parse_task_metadata: extract title and header fields from the file
content; fails (returns none) when no ROLE field or no title line is
found. -/
def parse_task_metadata (lines : List String) : Option TaskMeta :=
  match findFirst titleOfLine lines, findFirst (fieldOfLine ("ROLE")) lines with
  | some title, some role =>
    some ⟨title, role,
      findFirst (fieldOfLine ("PRIORITY")) lines,
      findFirst (fieldOfLine ("BRANCH")) lines,
      findFirst (fieldOfLine ("CREATED")) lines,
      findFirst (fieldOfLine ("CREATED_BY")) lines,
      findFirst (fieldOfLine ("PROJECT")) lines,
      findFirst (fieldOfLine ("BLOCKED_BY")) lines,
      findFirst (fieldOfLine ("CHECKS")) lines⟩
  | _, _ => none

/-- Modelled from the spec: db.update_task_queue of the orchestrator db
module (module not under src).  The spec states every transition
updates the queue field and appends exactly one TaskHistoryEvent; the
call site passes the task id, the new queue and the history event name,
actor and details. -/
def update_task_queue (tasks : List Task) (history : List HEvent)
    (tid q event actor details : String) : List Task × List HEvent :=
  (tasks.map (fun t => if t.id = tid then { t with queue := q } else t),
   history ++ [⟨tid, event, actor, details⟩])

/-- Existence test for the mirror file at <dir>/TASK-<tid>.md. -/
def fileExistsAt (fs : List FEntry) (d tid : String) : Bool :=
  fs.any (fun e => e.dir = d ∧ e.tid = tid)

/-- First filesystem entry at <dir>/TASK-<tid>.md. -/
def getEntry (fs : List FEntry) (d tid : String) : Option FEntry :=
  fs.find? (fun e => e.dir = d ∧ e.tid = tid)

/-- fix_file_db_mismatch: update the database to match the file
location, appending one file_db_sync history event; escalate when the
file disappeared. -/
def fix_file_db_mismatch (issue : FileMismatch) (w : World) : Bool × World :=
  if fileExistsAt w.files issue.file_queue issue.task_id then
    let p := update_task_queue w.tasks w.history issue.task_id issue.file_queue
      ("file_db_sync") ("queue-manager") (mkSyncDetails issue.db_queue issue.file_queue)
    (true, { w with tasks := p.1, history := p.2,
                    log := w.log ++ [⟨"file-db-sync", issue.task_id⟩] })
  else
    (false, { w with log := w.log ++ [⟨"escalate", issue.task_id⟩] })

/-- Modelled from the spec: db.create_task of the orchestrator db
module (module not under src).  The call site passes the task id, the
orphan file path and the parsed header fields; the spec registers the
task in the Store, and its Store/Mirror invariant (Store queue equals
the queue directory holding the mirror file) fixes the queue of the
registered record to the directory of the passed file path.  A freshly
created task is unclaimed with no attempts. -/
def create_task (tasks : List Task) (tid fileDir role priority branch : String)
    (blocked_by project : Option String) : List Task :=
  tasks ++ [⟨tid, fileDir, none, none, 0, role, priority, branch, blocked_by, project⟩]

/-- fix_orphan_file: register the orphan in the database when its
header parses, otherwise move the file to the quarantine directory. -/
def fix_orphan_file (issue : OrphanFile) (w : World) : Bool × World :=
  match getEntry w.files issue.file_queue issue.task_id with
  | none => (false, { w with log := w.log ++ [⟨"escalate", issue.task_id⟩] })
  | some e =>
    match parse_task_metadata e.file.lines with
    | none =>
      (false, { w with
        files := w.files.filter (fun e2 => ¬(e2.dir = issue.file_queue ∧ e2.tid = issue.task_id)),
        quarantine := w.quarantine ++ [e],
        log := w.log ++ [⟨"escalate", issue.task_id⟩] })
    | some m =>
      (true, { w with
        tasks := create_task w.tasks issue.task_id issue.file_queue m.role
          (m.priority.getD ("P1")) (m.branch.getD ("main")) m.blocked_by m.project,
        log := w.log ++ [⟨"orphan-fix", issue.task_id⟩] })

/-- Substring test over characters. -/
def containsSeq (pat : List Char) : List Char → Bool
  | [] => pat.isEmpty
  | c :: cs => pat.isPrefixOf (c :: cs) || containsSeq pat cs

/-- Test for the literal substring FAILED_AT marker anywhere in the
joined content (the marker contains no newline, so it occurs in the
join exactly when it occurs in some line). -/
def hasFailedSub (lines : List String) : Bool :=
  lines.any (fun l => containsSeq (("## FAILED_AT").data) l.data)

/-- Scan of re.sub removing FAILED_AT sections: a line starting with
the FAILED_AT heading opens a removed block, any other heading line
(two hashes) closes it and is kept, other lines are removed exactly
when inside a block. -/
def removeGo (inBlock : Bool) : List String → List String
  | [] => []
  | l :: ls =>
    if (("## FAILED_AT:").data).isPrefixOf l.data then removeGo true ls
    else if (("##").data).isPrefixOf l.data then l :: removeGo false ls
    else if inBlock then removeGo true ls
    else l :: removeGo false ls

/-- Removal of FAILED_AT sections from the content; the regex pattern
starts with a newline, so a section opening on the very first line of
the file is never matched. -/
def removeFailedSections : List String → List String
  | [] => []
  | l0 :: rest => l0 :: removeGo false rest

/-- Rows eligible for stale-error cleanup: retried tasks currently in
incoming or claimed. -/
def eligibleRetried (tasks : List Task) : List Task :=
  tasks.filter (fun t => 0 < t.attempt_count ∧ (t.queue = "incoming" ∨ t.queue = "claimed"))

/-- write_text of the cleaned content: replaces the content and stamps
the modification time with the current clock. -/
def writeFileAt (fs : List FEntry) (d tid : String) (lines : List String) (now : Int) :
    List FEntry :=
  fs.map (fun e => if e.dir = d ∧ e.tid = tid then ⟨e.dir, e.tid, ⟨now, lines⟩⟩ else e)

/-- Body of the fix_stale_errors loop for one retried task row. -/
def staleStep (t : Task) (w : World) : Nat × World :=
  match getEntry w.files t.queue t.id with
  | none => (0, w)
  | some e =>
    if hasFailedSub e.file.lines then
      (1, { w with files := writeFileAt w.files t.queue t.id (removeFailedSections e.file.lines) w.now,
                   log := w.log ++ [⟨"stale-error", t.id⟩] })
    else (0, w)

/-- Loop of fix_stale_errors over the retried task rows. -/
def staleGo : List Task → World → Nat × World
  | [], w => (0, w)
  | t :: ts, w =>
    let p := staleStep t w
    let q := staleGo ts p.2
    (p.1 + q.1, q.2)

/-- fix_stale_errors: strip stale FAILED_AT sections from the mirror
files of retried tasks sitting in incoming or claimed. -/
def fix_stale_errors (w : World) : Nat × World :=
  staleGo (eligibleRetried w.tasks) w

/-- escalate_zombie_claims: log an escalation per zombie claim; no
store or filesystem mutation. -/
def escalate_zombie_claims (issues : List ZombieClaim) (w : World) : World :=
  { w with log := w.log ++ issues.map (fun z => ⟨"escalate", z.task_id⟩) }

/-- Loop applying fix_file_db_mismatch to each detected mismatch,
counting the successful fixes. -/
def applyMismatchFixes : List FileMismatch → World → Nat × World
  | [], w => (0, w)
  | i :: is, w =>
    let p := fix_file_db_mismatch i w
    let q := applyMismatchFixes is p.2
    ((if p.1 then 1 else 0) + q.1, q.2)

/-- Loop applying fix_orphan_file to each detected orphan, counting the
successful registrations. -/
def applyOrphanFixes : List OrphanFile → World → Nat × World
  | [], w => (0, w)
  | i :: is, w =>
    let p := fix_orphan_file i w
    let q := applyOrphanFixes is p.2
    ((if p.1 then 1 else 0) + q.1, q.2)

/-- run_auto_fixes: detect all issues once, then fix mismatches, fix
orphans, clean stale errors and escalate zombie claims, returning the
counts of applied fixes. -/
def run_auto_fixes (w : World) : FixCounts × World :=
  let r := run_diagnostics w
  let p1 := applyMismatchFixes r.file_db_mismatches w
  let p2 := applyOrphanFixes r.orphan_files p1.2
  let p3 := fix_stale_errors p2.2
  let w4 := escalate_zombie_claims r.zombie_claims p3.2
  (⟨p1.1, p2.1, p3.1, r.zombie_claims.length⟩, w4)

/-- Truthiness of the has_issues check in main. -/
def has_issues (r : DiagnosticResult) : Bool :=
  ¬r.file_db_mismatches.isEmpty ∨ ¬r.orphan_files.isEmpty ∨ ¬r.zombie_claims.isEmpty

/-- Diagnose-only mode of main: exit code 1 when issues were found,
else 0. -/
def main_diagnose (w : World) : Nat :=
  if has_issues (run_diagnostics w) then 1 else 0

/-- Fix mode of main (the --fix flag): run the auto-fixes and return
exit code 0 unconditionally. -/
def main_fix (w : World) : Nat × World :=
  let p := run_auto_fixes w
  (0, p.2)

/-- Modelled from the spec: is_burned_out of orchestrator.queue_utils
(module not under src).  The spec defines burnout as commits_count == 0
and turns_used exceeding the configured ceiling. -/
def is_burned_out (commits_count turns_used threshold : Nat) : Bool :=
  commits_count = 0 ∧ threshold < turns_used

/-- Modelled from the spec: recycle_to_breakdown of
orchestrator.queue_utils (module not under src).  Recycling is bounded
by the decomposition depth cap: below the cap it spawns a new breakdown
task one level deeper, at or beyond the cap it yields nothing. -/
def recycle_to_breakdown (depth_cap depth : Nat) : Option Nat :=
  if depth < depth_cap then some (depth + 1) else none

/-- Outcome of processing one provisional task in accept_all.py. -/
inductive AcceptAction where
  | recycled (newDepth : Nat)
  | accepted (validator : String)
deriving DecidableEq, Repr

/-- Per-task decision of the accept_all.py main loop: burned-out tasks
are recycled when the depth cap allows, force-accepted with validator
manual-accept when recycle_to_breakdown yields nothing; tasks with
commits are accepted. -/
def accept_all_step (depth_cap threshold commits turns depth : Nat) : AcceptAction :=
  if is_burned_out commits turns threshold then
    match recycle_to_breakdown depth_cap depth with
    | some d => .recycled d
    | none => .accepted ("manual-accept")
  else .accepted ("manual-accept")

/-- Concrete world for the C1 witness: task a1 recorded in claimed but
its mirror file sitting in done, 1000 seconds old. -/
def W1x : World :=
  ⟨[⟨"done", "a1", ⟨0, []⟩⟩],
   [⟨"a1", "claimed", none, none, 0, "implement", "P1", "main", none, none⟩],
   [], [], [], [], 1000⟩

/-- Concrete detected mismatch for the C1 witness. -/
def I1x : FileMismatch := ⟨"a1", "claimed", "done", 1000⟩

/-- Concrete world for the C4 witness: two orphan mirror files 2000
seconds old, o1 with a parseable header and o2 without a ROLE field. -/
def W4x : World :=
  ⟨[⟨"done", "o1", ⟨0, ["# [TASK-o1] Fix the widget", "ROLE: implement", "PRIORITY: P2"]⟩⟩,
    ⟨"incoming", "o2", ⟨0, ["# [TASK-o2] Broken", "no header here"]⟩⟩],
   [], [], [], [], [], 2000⟩

/-- Concrete parseable orphan issue for the C4 witness. -/
def I4a : OrphanFile := ⟨"o1", "done", 2000⟩

/-- Concrete unparseable orphan issue for the C4 witness. -/
def I4b : OrphanFile := ⟨"o2", "incoming", 2000⟩

/-- Concrete world for the C3 witness: task z1 claimed three hours ago
by agent a1 whose last activity was two hours ago. -/
def W3x : World :=
  ⟨[], [⟨"z1", "claimed", some ("a1"), some ⟨"t0", some 0⟩, 0, "implement",
    "P1", "main", none, none⟩],
   [], [("a1", ⟨some ⟨"t1", some 3600⟩⟩)], [], [], 10800⟩

/-- Concrete world for the C9 counterexample: one zombie claim (task z9
claimed three hours ago by an agent with no state file) and nothing
else. -/
def W9x : World :=
  ⟨[], [⟨"z9", "claimed", some ("a9"), some ⟨"t0", some 0⟩, 0, "implement",
    "P1", "main", none, none⟩],
   [], [], [], [], 10800⟩

/-- Option preference: keep the first argument when present. -/
def optOr {α : Type} : Option α → Option α → Option α
  | some a, _ => some a
  | none, b => b

/-- Choice made by the directory scan for one task id: the last file
with that id in the last scanned directory holding one. -/
def scanChoice (fs : List FEntry) (tid : String) : List String → Option (String × MFile)
  | [] => none
  | d :: ds =>
    optOr (scanChoice fs tid ds)
      ((((filesIn fs d).filter (fun e => e.tid = tid)).getLast?).map (fun e => (d, e.file)))

/-- Concrete filesystem for the C10 witness: task a has mirror files in
both incoming and done, task b one file in claimed. -/
def FS10 : List FEntry :=
  [⟨"incoming", "a", ⟨0, []⟩⟩, ⟨"done", "a", ⟨5, []⟩⟩, ⟨"claimed", "b", ⟨1, []⟩⟩]

/-- World with a duplicated mirror file for task a (incoming and done)
for the factoring part of the C10 witness. -/
def W10a : World :=
  ⟨[⟨"incoming", "a", ⟨0, []⟩⟩, ⟨"done", "a", ⟨5, []⟩⟩], [], [], [], [], [], 1000⟩

/-- World W10a without the shadowed incoming file of task a; the
discovery map is unchanged. -/
def W10b : World := ⟨[⟨"done", "a", ⟨5, []⟩⟩], [], [], [], [], [], 1000⟩

/-- Presence of a removable FAILED_AT section: a heading line starting
with the FAILED_AT marker somewhere after the first line of the file
(the removal regex requires a preceding newline). -/
def hasRemovableSection (lines : List String) : Bool :=
  (lines.drop 1).any (fun l => (("## FAILED_AT:").data).isPrefixOf l.data)

/-- Concrete world for the C8 counterexample: retried task s8 in
incoming whose mirror file opens with a FAILED_AT section on its very
first line; the file's mtime already equals the clock so the rewrite
leaves the filesystem identical. -/
def W8x : World :=
  ⟨[⟨"incoming", "s8", ⟨77, ["## FAILED_AT: 2024-01-01", "oops"]⟩⟩],
   [⟨"s8", "incoming", none, none, 1, "implement", "P1", "main", none, none⟩],
   [], [], [], [], 77⟩

/-- Concrete world for the C8 witness: retried task s9 in incoming with
a FAILED_AT section starting on the second line of its file. -/
def W8w : World :=
  ⟨[⟨"incoming", "s9", ⟨0, ["# [TASK-s9] t", "## FAILED_AT: 2020", "junk"]⟩⟩],
   [⟨"s9", "incoming", none, none, 1, "implement", "P1", "main", none, none⟩],
   [], [], [], [], 500⟩

/-- Concrete world for the C7 counterexample: retried task s7 in
incoming whose mirror file carries a bare FAILED_AT heading with no
colon, which the substring test sees but the removal pattern never
strips. -/
def W7x : World :=
  ⟨[⟨"incoming", "s7", ⟨0, ["# [TASK-s7] t", "## FAILED_AT", "junk"]⟩⟩],
   [⟨"s7", "incoming", none, none, 1, "implement", "P1", "main", none, none⟩],
   [], [], [], [], 500⟩

/-- Concrete world for the C7 witness: a mismatch (m7), a parseable
orphan (o7), a removable stale section (s7w) and a persistent zombie
claim (z7). -/
def W7w : World :=
  ⟨[⟨"done", "m7", ⟨0, ["# [TASK-m7] mm"]⟩⟩,
    ⟨"incoming", "o7", ⟨0, ["# [TASK-o7] oo", "ROLE: implement"]⟩⟩,
    ⟨"incoming", "s7w", ⟨0, ["# [TASK-s7w] ss", "## FAILED_AT: 2020", "junk"]⟩⟩],
   [⟨"m7", "incoming", none, none, 0, "implement", "P1", "main", none, none⟩,
    ⟨"s7w", "incoming", none, none, 1, "implement", "P1", "main", none, none⟩,
    ⟨"z7", "claimed", some "a7", some ⟨"t0", some 0⟩, 0, "implement", "P1", "main",
      none, none⟩],
   [], [], [], [], 10800⟩

/-- Membership in a Python dict after an insertion. -/
theorem mem_dinsert {m : List (String × String × MFile)} {k : String}
    {v : String × MFile} {p : String × String × MFile} (h : p ∈ dinsert m k v) :
    p ∈ m ∨ p = (k, v) := by
  unfold dinsert at h
  split at h
  · rcases List.mem_map.1 h with ⟨q, hq, hqe⟩
    by_cases hk : q.1 = k
    · right
      rw [if_pos hk] at hqe
      exact hqe.symm
    · left
      rw [if_neg hk] at hqe
      exact hqe ▸ hq
  · rcases List.mem_append.1 h with h1 | h1
    · exact Or.inl h1
    · right
      exact (List.mem_singleton.1 h1)

/-- Bindings produced by the inner directory loop come from the initial
dict or from the scanned files. -/
theorem mem_addDir {d : String} {p : String × String × MFile} :
    ∀ (es : List FEntry) (m : List (String × String × MFile)),
      p ∈ addDir d es m → p ∈ m ∨ ∃ e ∈ es, p = (e.tid, d, e.file)
  | [], m, h => Or.inl h
  | e :: es, m, h => by
    rcases mem_addDir es (dinsert m e.tid (d, e.file)) h with h1 | h1
    · rcases mem_dinsert h1 with h2 | h2
      · exact Or.inl h2
      · exact Or.inr ⟨e, List.mem_cons_self e es, h2⟩
    · rcases h1 with ⟨e2, he2, hpe⟩
      exact Or.inr ⟨e2, List.mem_cons_of_mem e he2, hpe⟩

/-- Bindings produced by the outer loop come from the initial dict or
from a file whose directory is among the scanned ones. -/
theorem mem_findAllGo {fs : List FEntry} {p : String × String × MFile} :
    ∀ (ds : List String) (m : List (String × String × MFile)),
      p ∈ findAllGo fs ds m →
      p ∈ m ∨ ∃ e ∈ fs, e.dir ∈ ds ∧ p = (e.tid, e.dir, e.file)
  | [], m, h => Or.inl h
  | d :: ds, m, h => by
    rcases mem_findAllGo ds (addDir d (filesIn fs d) m) h with h1 | h1
    · rcases mem_addDir (filesIn fs d) m h1 with h2 | h2
      · exact Or.inl h2
      · rcases h2 with ⟨e, he, hpe⟩
        have hd : e.dir = d ∧ e ∈ fs := by
          have := List.mem_filter.1 he
          exact ⟨by simpa using this.2, this.1⟩
        exact Or.inr ⟨e, hd.2, by rw [hd.1]; exact List.mem_cons_self d ds, by rw [hd.1]; exact hpe⟩
    · rcases h1 with ⟨e, he, hds, hpe⟩
      exact Or.inr ⟨e, he, List.mem_cons_of_mem d hds, hpe⟩

/-- Every binding of find_all_task_files is backed by a real filesystem
entry in one of the queue directories. -/
theorem mem_find_all_task_files {fs : List FEntry} {p : String × String × MFile}
    (h : p ∈ find_all_task_files fs) :
    ∃ e ∈ fs, e.dir ∈ ALL_QUEUE_DIRS ∧ p = (e.tid, e.dir, e.file) := by
  rcases mem_findAllGo ALL_QUEUE_DIRS [] h with h1 | h1
  · exact absurd h1 (List.not_mem_nil p)
  · exact h1

/-- C2: burnout classification is a pure function of commits, turns and
threshold; a task is burned out exactly when commits_count is zero and
turns_used exceeds the configured ceiling, and any task with at least
one commit is never burned out. -/
theorem burnout_pure_characterization (c t th : Nat) :
    (is_burned_out c t th = true ↔ (c = 0 ∧ th < t)) ∧
    (1 ≤ c → is_burned_out c t th = false) := by
  constructor
  · simp [is_burned_out]
  · intro hc
    simp [is_burned_out]
    intro h0
    omega

/-- Witness for C2 on concrete inputs: 0 commits over 25 turns with a
ceiling of 20 is burned out, 3 commits over 999 turns is not. -/
theorem burnout_pure_characterization_witness :
    (is_burned_out 0 25 20 = true ↔ (0 = 0 ∧ 20 < 25)) ∧ is_burned_out 3 999 20 = false :=
  ⟨(burnout_pure_characterization 0 25 20).1,
   (burnout_pure_characterization 3 999 20).2 (by decide)⟩

/-- C5: when a burned-out provisional task reaches the decomposition
depth cap, recycle_to_breakdown yields nothing and the accept_all loop
force-accepts it via accept_completion with validator manual-accept;
consequently a lineage of repeated burnouts recycles exactly cap minus
depth times and then terminates in a forced acceptance. -/
theorem depth_cap_forces_manual_accept (cap th c t d : Nat)
    (hburn : is_burned_out c t th = true) :
    (∀ k, k < cap - d → accept_all_step cap th c t (d + k) = .recycled (d + k + 1)) ∧
    accept_all_step cap th c t (d + (cap - d)) = .accepted ("manual-accept") := by
  constructor
  · intro k hk
    have hlt : d + k < cap := by omega
    simp [accept_all_step, hburn, recycle_to_breakdown, hlt]
  · have hge : ¬(d + (cap - d) < cap) := by omega
    simp [accept_all_step, hburn, recycle_to_breakdown, hge]

/-- Witness for C5: with depth cap 2, threshold 20, a burned-out task
at depth 0 recycles at depths 0 and 1 and is force-accepted at depth 2
with validator manual-accept. -/
theorem depth_cap_forces_manual_accept_witness :
    accept_all_step 2 20 0 30 0 = .recycled 1 ∧
    accept_all_step 2 20 0 30 2 = .accepted ("manual-accept") :=
  ⟨(depth_cap_forces_manual_accept 2 20 0 30 0 (by decide)).1 0 (by decide),
   (depth_cap_forces_manual_accept 2 20 0 30 0 (by decide)).2⟩

/-- C6: the mismatch and orphan detectors only report files at least
the minimum-age threshold old, and the zombie detector never consults
the filesystem at all (its output is invariant under any change of the
mirror files), so no issue of any kind is reported for a file younger
than the threshold. -/
theorem min_age_excludes_young_files (w : World) (a ch ih : Int) :
    (∀ i ∈ detect_file_db_mismatches a w, a ≤ i.age_seconds) ∧
    (∀ i ∈ detect_orphan_files a w, a ≤ i.age_seconds) ∧
    (∀ fs2, detect_zombie_claims ch ih { w with files := fs2 } =
      detect_zombie_claims ch ih w) := by
  refine ⟨?_, ?_, fun fs2 => rfl⟩
  · intro i hi
    rcases List.mem_filterMap.1 hi with ⟨p, hp, hf⟩
    split at hf
    · exact absurd hf (by simp)
    · split at hf
      · exact absurd hf (by simp)
      · split at hf
        · rename_i hage
          cases hf
          exact hage
        · exact absurd hf (by simp)
  · intro i hi
    rcases List.mem_filterMap.1 hi with ⟨p, hp, hf⟩
    split at hf
    · exact absurd hf (by simp)
    · split at hf
      · rename_i hage
        cases hf
        exact hage
      · exact absurd hf (by simp)

/-- Detected mismatches concern files that exist on disk: the binding
scanned by find_all_task_files is backed by a filesystem entry. -/
theorem detect_mismatch_file_exists {w : World} {a : Int} {i : FileMismatch}
    (h : i ∈ detect_file_db_mismatches a w) :
    fileExistsAt w.files i.file_queue i.task_id = true := by
  rcases List.mem_filterMap.1 h with ⟨p, hp, hf⟩
  rcases mem_find_all_task_files hp with ⟨e, he, hdir, hpe⟩
  have hq : i.file_queue = p.2.1 ∧ i.task_id = p.1 := by
    split at hf
    · exact absurd hf (by simp)
    · split at hf
      · exact absurd hf (by simp)
      · split at hf
        · cases hf
          exact ⟨rfl, rfl⟩
        · exact absurd hf (by simp)
  rw [hq.1, hq.2, hpe]
  exact List.any_eq_true.2 ⟨e, he, by simp⟩

/-- C1: applied to a detected mismatch (a task present in both the
store and the mirror, file in a different queue directory than the
store queue, file at least the minimum age old), the mismatch fix
returns success, rewrites the store queue of that task to the queue
directory of the file, appends exactly one file_db_sync history event
recording the before and after queues, and leaves the mirror files
untouched. -/
theorem mismatch_fix_syncs_store_and_keeps_file (w : World) (i : FileMismatch)
    (hmem : i ∈ detect_file_db_mismatches MIN_FILE_AGE_SECONDS w) :
    fix_file_db_mismatch i w =
      (true,
        { w with
          tasks := w.tasks.map (fun t =>
            if t.id = i.task_id then { t with queue := i.file_queue } else t),
          history := w.history ++ [⟨i.task_id, "file_db_sync", "queue-manager",
            mkSyncDetails i.db_queue i.file_queue⟩],
          log := w.log ++ [⟨"file-db-sync", i.task_id⟩] }) ∧
    (fix_file_db_mismatch i w).2.files = w.files := by
  have hex := detect_mismatch_file_exists hmem
  refine ⟨?_, ?_⟩ <;> simp [fix_file_db_mismatch, hex, update_task_queue]

/-- Witness for C1 at the concrete mismatch of W1x. -/
theorem mismatch_fix_syncs_store_and_keeps_file_witness :
    fix_file_db_mismatch I1x W1x =
      (true,
        { W1x with
          tasks := W1x.tasks.map (fun t =>
            if t.id = I1x.task_id then { t with queue := I1x.file_queue } else t),
          history := W1x.history ++ [⟨I1x.task_id, "file_db_sync", "queue-manager",
            mkSyncDetails I1x.db_queue I1x.file_queue⟩],
          log := W1x.log ++ [⟨"file-db-sync", I1x.task_id⟩] }) ∧
    (fix_file_db_mismatch I1x W1x).2.files = W1x.files :=
  mismatch_fix_syncs_store_and_keeps_file W1x I1x (by decide)

/-- C4: for a detected orphan (a mirror file past the minimum age with
no store record), the orphan fix registers the task in the store with
the parsed role and the defined defaults P1 and main for absent
priority and branch, carrying the parsed blockers and project, leaving
the file in place, when the header parses; when parsing fails the file
is moved to the quarantine directory and no store record is created. -/
theorem orphan_fix_registers_or_quarantines (w : World) (i : OrphanFile) (e : FEntry)
    (hmem : i ∈ detect_orphan_files MIN_FILE_AGE_SECONDS w)
    (hent : getEntry w.files i.file_queue i.task_id = some e) :
    (∀ m, parse_task_metadata e.file.lines = some m →
      fix_orphan_file i w =
        (true,
          { w with
            tasks := w.tasks ++ [⟨i.task_id, i.file_queue, none, none, 0, m.role,
              m.priority.getD ("P1"), m.branch.getD ("main"), m.blocked_by, m.project⟩],
            log := w.log ++ [⟨"orphan-fix", i.task_id⟩] })) ∧
    (parse_task_metadata e.file.lines = none →
      fix_orphan_file i w =
        (false,
          { w with
            files := w.files.filter (fun e2 =>
              ¬(e2.dir = i.file_queue ∧ e2.tid = i.task_id)),
            quarantine := w.quarantine ++ [e],
            log := w.log ++ [⟨"escalate", i.task_id⟩] })) := by
  constructor
  · intro m hm
    simp [fix_orphan_file, hent, hm, create_task]
  · intro hm
    simp [fix_orphan_file, hent, hm]

/-- Witness for C4: the parseable orphan o1 is registered with its
parsed role and priority and the default branch, and the unparseable
orphan o2 is moved to quarantine with no store record created. -/
theorem orphan_fix_registers_or_quarantines_witness :
    fix_orphan_file I4a W4x =
      (true,
        { W4x with
          tasks := W4x.tasks ++ [⟨"o1", "done", none, none, 0, "implement",
            "P2", "main", none, none⟩],
          log := W4x.log ++ [⟨"orphan-fix", "o1"⟩] }) ∧
    fix_orphan_file I4b W4x =
      (false,
        { W4x with
          files := W4x.files.filter (fun e2 => ¬(e2.dir = "incoming" ∧ e2.tid = "o2")),
          quarantine := W4x.quarantine ++
            [⟨"incoming", "o2", ⟨0, ["# [TASK-o2] Broken", "no header here"]⟩⟩],
          log := W4x.log ++ [⟨"escalate", "o2"⟩] }) := by
  constructor
  · exact (orphan_fix_registers_or_quarantines W4x I4a
      ⟨"done", "o1", ⟨0, ["# [TASK-o1] Fix the widget", "ROLE: implement", "PRIORITY: P2"]⟩⟩
      (by decide) (by decide)).1
      ⟨"Fix the widget", "implement", some ("P2"), none, none, none, none, none, none⟩
      (by decide)
  · exact (orphan_fix_registers_or_quarantines W4x I4b
      ⟨"incoming", "o2", ⟨0, ["# [TASK-o2] Broken", "no header here"]⟩⟩
      (by decide) (by decide)).2 (by decide)

/-- C3: a task id is reported as a zombie claim exactly when some store
row for it is in queue claimed with claimed_by set and a parseable
claimed_at at least the two-hour claim threshold old, and the owning
agent has no computable last-activity age (no state file, no
last_finished value or an unparseable one) or one at least the one-hour
inactivity threshold; escalating zombie claims leaves the store, the
mirror files, the history, the quarantine and the agent records
unmodified. -/
theorem zombie_claim_characterization (w : World) (tid : String) :
    ((∃ z ∈ detect_zombie_claims ZOMBIE_CLAIM_HOURS AGENT_INACTIVE_HOURS w,
        z.task_id = tid) ↔
      ∃ t ∈ w.tasks, t.id = tid ∧ t.queue = "claimed" ∧
        ∃ a ts ct, t.claimed_by = some a ∧ t.claimed_at = some ts ∧
          ts.parsed = some ct ∧ ZOMBIE_CLAIM_HOURS * 3600 ≤ w.now - ct ∧
          ((agentActivity w a).2 = none ∨
            ∃ s, (agentActivity w a).2 = some s ∧ AGENT_INACTIVE_HOURS * 3600 ≤ s)) ∧
    ∀ issues,
      (escalate_zombie_claims issues w).tasks = w.tasks ∧
      (escalate_zombie_claims issues w).files = w.files ∧
      (escalate_zombie_claims issues w).history = w.history ∧
      (escalate_zombie_claims issues w).quarantine = w.quarantine ∧
      (escalate_zombie_claims issues w).agents = w.agents := by
  refine ⟨⟨?_, ?_⟩, fun issues => ⟨rfl, rfl, rfl, rfl, rfl⟩⟩
  · rintro ⟨z, hz, rfl⟩
    rcases List.mem_filterMap.1 hz with ⟨t, ht, hf⟩
    split at hf
    · rename_i hq
      split at hf
      · rename_i a ts hcb hca
        split at hf
        · exact absurd hf (by simp)
        · rename_i ct hp
          split at hf
          · exact absurd hf (by simp)
          · rename_i hdur
            split at hf
            · rename_i lastA hact
              cases hf
              exact ⟨t, ht, rfl, hq, a, ts, ct, hcb, hca, hp, by omega,
                Or.inl (by rw [hact])⟩
            · rename_i lastA s hact
              split at hf
              · rename_i hs
                cases hf
                exact ⟨t, ht, rfl, hq, a, ts, ct, hcb, hca, hp, by omega,
                  Or.inr ⟨s, by rw [hact], hs⟩⟩
              · exact absurd hf (by simp)
      · exact absurd hf (by simp)
    · exact absurd hf (by simp)
  · rintro ⟨t, ht, rfl, hq, a, ts, ct, hcb, hca, hp, hdur, hrest⟩
    rcases hact : agentActivity w a with ⟨lastA, inact⟩
    have hndur : ¬(w.now - ct < ZOMBIE_CLAIM_HOURS * 3600) := by omega
    rcases hrest with hnone | ⟨s, hs, hsge⟩
    · rw [hact] at hnone
      simp only at hnone
      refine ⟨⟨t.id, a, ts.raw, w.now - ct, lastA, none⟩,
        List.mem_filterMap.2 ⟨t, ht, ?_⟩, rfl⟩
      simp [hq, hcb, hca, hp, hndur, hact, hnone]
    · rw [hact] at hs
      simp only at hs
      subst hs
      refine ⟨⟨t.id, a, ts.raw, w.now - ct, lastA, some s⟩,
        List.mem_filterMap.2 ⟨t, ht, ?_⟩, rfl⟩
      simp [hq, hcb, hca, hp, hndur, hact, hsge]

/-- Witness for C3: in W3x the task z1 is reported as a zombie claim
and escalation leaves the store unchanged. -/
theorem zombie_claim_characterization_witness :
    (∃ z ∈ detect_zombie_claims ZOMBIE_CLAIM_HOURS AGENT_INACTIVE_HOURS W3x,
      z.task_id = "z1") ∧
    (escalate_zombie_claims (detect_zombie_claims ZOMBIE_CLAIM_HOURS
      AGENT_INACTIVE_HOURS W3x) W3x).tasks = W3x.tasks :=
  ⟨(zombie_claim_characterization W3x ("z1")).1.2
    ⟨⟨"z1", "claimed", some ("a1"), some ⟨"t0", some 0⟩, 0, "implement",
      "P1", "main", none, none⟩, by decide, rfl, rfl, "a1", ⟨"t0", some 0⟩, 0,
      rfl, rfl, rfl, by decide, Or.inr ⟨7200, by decide, by decide⟩⟩,
   ((zombie_claim_characterization W3x ("z1")).2 _).1⟩

/-- C9 counterexample: in apply (--fix) mode the pass exits with status
zero even though an unresolved zombie claim remains after the fixes,
contradicting the claim that both modes exit non-zero when unresolved
issues remain. -/
theorem fix_mode_exit_code_counterexample :
    (main_fix W9x).1 = 0 ∧
    detect_zombie_claims ZOMBIE_CLAIM_HOURS AGENT_INACTIVE_HOURS (main_fix W9x).2 ≠ [] := by
  exact ⟨rfl, by decide⟩

/-- C9 amended: the dry-run diagnose mode exits with status one exactly
when some issue (mismatch, orphan or zombie) is detected and zero
exactly when none is, while the apply (--fix) mode always exits with
status zero, regardless of remaining unresolved issues. -/
theorem exit_codes_amended (w : World) :
    (main_diagnose w = 1 ↔
      (detect_file_db_mismatches MIN_FILE_AGE_SECONDS w ≠ [] ∨
       detect_orphan_files MIN_FILE_AGE_SECONDS w ≠ [] ∨
       detect_zombie_claims ZOMBIE_CLAIM_HOURS AGENT_INACTIVE_HOURS w ≠ [])) ∧
    (main_diagnose w = 0 ↔
      (detect_file_db_mismatches MIN_FILE_AGE_SECONDS w = [] ∧
       detect_orphan_files MIN_FILE_AGE_SECONDS w = [] ∧
       detect_zombie_claims ZOMBIE_CLAIM_HOURS AGENT_INACTIVE_HOURS w = [])) ∧
    (main_fix w).1 = 0 := by
  refine ⟨?_, ?_, rfl⟩ <;>
  · by_cases h1 : detect_file_db_mismatches MIN_FILE_AGE_SECONDS w = [] <;>
    by_cases h2 : detect_orphan_files MIN_FILE_AGE_SECONDS w = [] <;>
    by_cases h3 : detect_zombie_claims ZOMBIE_CLAIM_HOURS AGENT_INACTIVE_HOURS w = [] <;>
    simp [main_diagnose, has_issues, run_diagnostics, h1, h2, h3, List.isEmpty_iff]

/-- Witness for the amended C9 at the concrete zombie world W9x: the
diagnose mode exits one because a zombie claim is present. -/
theorem exit_codes_amended_witness :
    main_diagnose W9x = 1 :=
  (exit_codes_amended W9x).1.2
    (Or.inr (Or.inr (by decide)))

/-- Right identity of optOr. -/
theorem optOr_none_right {α : Type} (a : Option α) : optOr a none = a := by
  cases a <;> rfl

/-- Associativity of optOr. -/
theorem optOr_assoc {α : Type} (a b c : Option α) :
    optOr (optOr a b) c = optOr a (optOr b c) := by
  cases a <;> rfl

/-- An optOr is none exactly when both sides are. -/
theorem optOr_eq_none {α : Type} {a b : Option α} (h : optOr a b = none) :
    a = none ∧ b = none := by
  cases a
  · exact ⟨rfl, h⟩
  · exact absurd h (by simp [optOr])

/-- Map distributes over optOr. -/
theorem optOr_map {α β : Type} (f : α → β) (a b : Option α) :
    (optOr a b).map f = optOr (a.map f) (b.map f) := by
  cases a <;> rfl

/-- Last element of a cons as an optOr. -/
theorem getLast?_cons_optOr {α : Type} (a : α) (l : List α) :
    (a :: l).getLast? = optOr l.getLast? (some a) := by
  induction l generalizing a with
  | nil => rfl
  | cons b t ih =>
    rw [List.getLast?_cons_cons, ih b]
    cases h : t.getLast? <;> simp [optOr]

/-- A list with no last element is empty. -/
theorem getLast?_eq_none_iff_nil {α : Type} (l : List α) :
    l.getLast? = none ↔ l = [] := by
  cases l with
  | nil => simp
  | cons a l =>
    simp only [getLast?_cons_optOr]
    constructor
    · intro h
      rcases optOr_eq_none h with ⟨h1, h2⟩
      exact absurd h2 (by simp)
    · intro h
      exact absurd h (by simp)

/-- The last element of a list is a member. -/
theorem getLast?_mem_self {α : Type} :
    ∀ {l : List α} {a : α}, l.getLast? = some a → a ∈ l := by
  intro l
  induction l with
  | nil => intro a h; exact absurd h (by simp)
  | cons b l ih =>
    intro a h
    rw [getLast?_cons_optOr] at h
    cases hl : l.getLast? with
    | none =>
      rw [hl] at h
      cases h
      exact List.mem_cons_self b l
    | some c =>
      rw [hl] at h
      cases h
      exact List.mem_cons_of_mem b (ih hl)

/-- Finding by key commutes with a key-preserving map. -/
theorem find?_map_keyfix {V : Type} (g : String × V → String × V)
    (hg : ∀ p, (g p).1 = p.1) (tid : String) :
    ∀ (m : List (String × V)),
      List.find? (fun p => p.1 = tid) (m.map g) =
        (List.find? (fun p => p.1 = tid) m).map g := by
  intro m
  induction m with
  | nil => rfl
  | cons p m ih =>
    by_cases hpt : p.1 = tid
    · simp [List.find?_cons, hpt, hg]
    · simp [List.find?_cons, hpt, hg, ih]

/-- Python dict lookup after dict insertion. -/
theorem dlookup_dinsert (m : List (String × String × MFile)) (k tid : String)
    (v : String × MFile) :
    dlookup (dinsert m k v) tid = if tid = k then some v else dlookup m tid := by
  unfold dinsert
  split
  · rename_i hany
    unfold dlookup
    rw [find?_map_keyfix (fun p => if p.1 = k then (k, v) else p)
      (fun p => by by_cases h : p.1 = k <;> simp [h]) tid m]
    cases hfind : List.find? (fun p => p.1 = tid) m with
    | none =>
      by_cases htk : tid = k
      · exfalso
        rcases List.any_eq_true.1 hany with ⟨q, hq, hqk⟩
        have hsome : (List.find? (fun p => p.1 = tid) m).isSome := by
          rw [List.find?_isSome]
          exact ⟨q, hq, by simpa [htk] using hqk⟩
        rw [hfind] at hsome
        exact absurd hsome (by simp)
      · simp [htk]
    | some p =>
      have hpt : p.1 = tid := by simpa using List.find?_some hfind
      by_cases htk : tid = k
      · have hpk : p.1 = k := hpt.trans htk
        simp [htk, hpk]
      · have hpk : ¬(p.1 = k) := fun h => htk (hpt.symm.trans h)
        simp [htk, hpk]
  · rename_i hany
    unfold dlookup
    rw [List.find?_append]
    cases hfind : List.find? (fun p => p.1 = tid) m with
    | none =>
      by_cases htk : tid = k
      · simp [List.find?_cons, htk]
      · have hkt : ¬(k = tid) := fun h => htk h.symm
        simp [List.find?_cons, htk, hkt]
    | some p =>
      have hpt : p.1 = tid := by simpa using List.find?_some hfind
      have htk : ¬(tid = k) := by
        intro h
        have hany2 : (m.any fun p => p.1 = k) = true :=
          List.any_eq_true.2 ⟨p, List.mem_of_find?_eq_some hfind, by simp [hpt, h]⟩
        simp [hany2] at hany
      simp [htk]

/-- Lookup after the inner directory loop: the last scanned file with
the id wins over the initial dict. -/
theorem dlookup_addDir (d tid : String) :
    ∀ (es : List FEntry) (m : List (String × String × MFile)),
      dlookup (addDir d es m) tid =
        optOr (((es.filter (fun e => e.tid = tid)).getLast?).map (fun e => (d, e.file)))
          (dlookup m tid)
  | [], m => by simp [addDir, optOr]
  | e :: es, m => by
    rw [addDir, dlookup_addDir d tid es (dinsert m e.tid (d, e.file)),
      dlookup_dinsert]
    by_cases he : e.tid = tid
    · have filt : (e :: es).filter (fun e => e.tid = tid) =
        e :: es.filter (fun e => e.tid = tid) := by
        simp [List.filter_cons, he]
      rw [filt, getLast?_cons_optOr, optOr_map, if_pos he.symm]
      cases h : (es.filter (fun e => e.tid = tid)).getLast? <;> simp [optOr]
    · have filt : (e :: es).filter (fun e => e.tid = tid) =
        es.filter (fun e => e.tid = tid) := by
        simp [List.filter_cons, he]
      rw [filt, if_neg (fun h => he h.symm)]

/-- Lookup after the outer directory loop in terms of scanChoice. -/
theorem dlookup_findAllGo (fs : List FEntry) (tid : String) :
    ∀ (ds : List String) (m : List (String × String × MFile)),
      dlookup (findAllGo fs ds m) tid = optOr (scanChoice fs tid ds) (dlookup m tid)
  | [], m => by simp [findAllGo, scanChoice, optOr]
  | d :: ds, m => by
    rw [findAllGo, dlookup_findAllGo fs tid ds (addDir d (filesIn fs d) m),
      dlookup_addDir, scanChoice, ← optOr_assoc]

/-- Lookup in the scan result is exactly the scan choice. -/
theorem dlookup_find_all (fs : List FEntry) (tid : String) :
    dlookup (find_all_task_files fs) tid = scanChoice fs tid ALL_QUEUE_DIRS := by
  rw [find_all_task_files, dlookup_findAllGo]
  simp [dlookup, optOr_none_right]

/-- A scan with no choice for an id means no directory in the scanned
list holds a file with that id. -/
theorem scanChoice_none {fs : List FEntry} {tid : String} :
    ∀ {ds : List String}, scanChoice fs tid ds = none →
      ∀ e ∈ fs, e.tid = tid → e.dir ∉ ds := by
  intro ds
  induction ds with
  | nil => intro _ e _ _ h; exact absurd h (List.not_mem_nil _)
  | cons d ds ih =>
    intro h e he htid hmem
    rcases optOr_eq_none h with ⟨h1, h2⟩
    rcases List.mem_cons.1 hmem with hd | hd
    · have hfil : ((filesIn fs d).filter (fun e => e.tid = tid)) = [] := by
        have := (Option.map_eq_none).1 h2
        exact (getLast?_eq_none_iff_nil _).1 this
      have : e ∈ (filesIn fs d).filter (fun e => e.tid = tid) := by
        refine List.mem_filter.2 ⟨List.mem_filter.2 ⟨he, by simp [hd]⟩, by simp [htid]⟩
      rw [hfil] at this
      exact absurd this (List.not_mem_nil e)
    · exact ih h1 e he htid hd

/-- A successful scan choice names the last directory in scan order
holding a file for the id, with the backing entry, and no directory
scanned after it holds one. -/
theorem scanChoice_some {fs : List FEntry} {tid : String} :
    ∀ {ds : List String} {d : String} {f : MFile},
      scanChoice fs tid ds = some (d, f) →
      ∃ l1 l2, ds = l1 ++ d :: l2 ∧
        (∃ e ∈ fs, e.dir = d ∧ e.tid = tid ∧ e.file = f) ∧
        ∀ e ∈ fs, e.tid = tid → e.dir ∉ l2 := by
  intro ds
  induction ds with
  | nil => intro d f h; exact absurd h (by simp [scanChoice])
  | cons d0 ds ih =>
    intro d f h
    rw [scanChoice] at h
    cases hs : scanChoice fs tid ds with
    | some v =>
      rw [hs] at h
      cases h
      rcases ih hs with ⟨l1, l2, hds, hback, hafter⟩
      exact ⟨d0 :: l1, l2, by rw [hds]; rfl, hback, hafter⟩
    | none =>
      rw [hs] at h
      simp only [optOr] at h
      rcases (Option.map_eq_some).1 h with ⟨e, hlast, hef⟩
      have hmem := getLast?_mem_self hlast
      have h1 := List.mem_filter.1 hmem
      have h2 := List.mem_filter.1 h1.1
      cases hef
      exact ⟨[], ds, rfl,
        ⟨e, h2.1, by simpa using h2.2, by simpa using h1.2, rfl⟩,
        scanChoice_none hs⟩

/-- Keys of a Python dict stay pairwise distinct under insertion. -/
theorem pairwise_dinsert {m : List (String × String × MFile)} {k : String}
    {v : String × MFile} (h : m.Pairwise (fun p q => p.1 ≠ q.1)) :
    (dinsert m k v).Pairwise (fun p q => p.1 ≠ q.1) := by
  unfold dinsert
  split
  · refine List.pairwise_map.2 (h.imp ?_)
    intro a b hab
    have ha : (if a.1 = k then (k, v) else a).1 = a.1 := by
      by_cases h1 : a.1 = k <;> simp [h1]
    have hb : (if b.1 = k then (k, v) else b).1 = b.1 := by
      by_cases h1 : b.1 = k <;> simp [h1]
    rw [ha, hb]
    exact hab
  · rename_i hany
    refine List.pairwise_append.2 ⟨h, by simp, ?_⟩
    intro p hp q hq
    rcases List.mem_singleton.1 hq with rfl
    intro hpk
    exact hany (List.any_eq_true.2 ⟨p, hp, by simpa using hpk⟩)

/-- Keys stay pairwise distinct through the inner directory loop. -/
theorem pairwise_addDir {d : String} :
    ∀ (es : List FEntry) (m : List (String × String × MFile)),
      m.Pairwise (fun p q => p.1 ≠ q.1) →
      (addDir d es m).Pairwise (fun p q => p.1 ≠ q.1)
  | [], m, h => h
  | e :: es, m, h => pairwise_addDir es (dinsert m e.tid (d, e.file)) (pairwise_dinsert h)

/-- Keys stay pairwise distinct through the outer directory loop. -/
theorem pairwise_findAllGo {fs : List FEntry} :
    ∀ (ds : List String) (m : List (String × String × MFile)),
      m.Pairwise (fun p q => p.1 ≠ q.1) →
      (findAllGo fs ds m).Pairwise (fun p q => p.1 ≠ q.1)
  | [], m, h => h
  | d :: ds, m, h => pairwise_findAllGo ds (addDir d (filesIn fs d) m) (pairwise_addDir _ m h)

/-- C10: the task-file discovery keeps at most one (queue, file) pair
per task id (its keys are pairwise distinct); a successful lookup names
the last queue directory in the fixed scan order holding a file for the
id, every other file of the id in a later directory being impossible
(so earlier ones are silently shadowed); every file in a queue
directory yields a binding; and all three detectors read the
filesystem only through the discovery map, so shadowed duplicates are
never themselves reported as issues. -/
theorem find_all_unique_last_dir_wins (fs : List FEntry) :
    (find_all_task_files fs).Pairwise (fun p q => p.1 ≠ q.1) ∧
    (∀ tid d f, dlookup (find_all_task_files fs) tid = some (d, f) →
      ∃ l1 l2, ALL_QUEUE_DIRS = l1 ++ d :: l2 ∧
        (∃ e ∈ fs, e.dir = d ∧ e.tid = tid ∧ e.file = f) ∧
        ∀ e ∈ fs, e.tid = tid → e.dir ∉ l2) ∧
    (∀ e ∈ fs, e.dir ∈ ALL_QUEUE_DIRS →
      (dlookup (find_all_task_files fs) e.tid).isSome = true) ∧
    (∀ (w1 w2 : World) (a ch ih : Int), w1.tasks = w2.tasks → w1.agents = w2.agents →
      w1.now = w2.now → find_all_task_files w1.files = find_all_task_files w2.files →
      detect_file_db_mismatches a w1 = detect_file_db_mismatches a w2 ∧
      detect_orphan_files a w1 = detect_orphan_files a w2 ∧
      detect_zombie_claims ch ih w1 = detect_zombie_claims ch ih w2) := by
  refine ⟨pairwise_findAllGo ALL_QUEUE_DIRS [] (by simp), ?_, ?_, ?_⟩
  · intro tid d f h
    rw [dlookup_find_all] at h
    exact scanChoice_some h
  · intro e he hdir
    rw [dlookup_find_all]
    cases hs : scanChoice fs e.tid ALL_QUEUE_DIRS with
    | some v => simp
    | none => exact absurd hdir (scanChoice_none hs e he rfl)
  · intro w1 w2 a ch ih ht hag hn hf
    refine ⟨?_, ?_, ?_⟩
    · unfold detect_file_db_mismatches
      simp only [ht, hn, hf]
    · unfold detect_orphan_files
      simp only [ht, hn, hf]
    · unfold detect_zombie_claims agentActivity
      simp only [ht, hag, hn]

/-- Witness for C10: with duplicate files for task a, the chosen pair is
the done one with no file in a later directory, task b is represented,
and removing the shadowed incoming file changes no detector output. -/
theorem find_all_unique_last_dir_wins_witness :
    (∃ l1 l2, ALL_QUEUE_DIRS = l1 ++ ("done") :: l2 ∧
      (∃ e ∈ FS10, e.dir = "done" ∧ e.tid = "a" ∧ e.file = ⟨5, []⟩) ∧
      ∀ e ∈ FS10, e.tid = "a" → e.dir ∉ l2) ∧
    (dlookup (find_all_task_files FS10) ("b")).isSome = true ∧
    (detect_file_db_mismatches 300 W10a = detect_file_db_mismatches 300 W10b ∧
     detect_orphan_files 300 W10a = detect_orphan_files 300 W10b ∧
     detect_zombie_claims 2 1 W10a = detect_zombie_claims 2 1 W10b) :=
  ⟨(find_all_unique_last_dir_wins FS10).2.1 ("a") ("done") ⟨5, []⟩ (by decide),
   (find_all_unique_last_dir_wins FS10).2.2.1 ⟨"claimed", "b", ⟨1, []⟩⟩
     (by decide) (by decide),
   (find_all_unique_last_dir_wins FS10).2.2.2 W10a W10b 300 2 1 rfl rfl rfl (by decide)⟩

/-- A prefix is in particular a contained sequence. -/
theorem containsSeq_of_isPrefixOf {pat s : List Char} (h : pat.isPrefixOf s = true) :
    containsSeq pat s = true := by
  cases s with
  | nil =>
    cases pat with
    | nil => rfl
    | cons c cs => exact absurd h (by simp [List.isPrefixOf])
  | cons c cs =>
    unfold containsSeq
    rw [h]
    rfl

/-- A line starting with the FAILED_AT heading contains the FAILED_AT
marker substring. -/
theorem marker_sub_of_head {l : String}
    (h : (("## FAILED_AT:").data).isPrefixOf l.data = true) :
    containsSeq (("## FAILED_AT").data) l.data = true := by
  refine containsSeq_of_isPrefixOf ?_
  have h2 : (("## FAILED_AT").data) <+: (("## FAILED_AT:").data) := by decide
  exact List.isPrefixOf_iff_prefix.2 (h2.trans (List.isPrefixOf_iff_prefix.1 h))

/-- A file with a removable FAILED_AT section passes the substring
check of fix_stale_errors. -/
theorem hasFailedSub_of_removable {lines : List String}
    (h : hasRemovableSection lines = true) : hasFailedSub lines = true := by
  rcases List.any_eq_true.1 h with ⟨l, hl, hpre⟩
  exact List.any_eq_true.2 ⟨l, List.mem_of_mem_drop hl, marker_sub_of_head hpre⟩

/-- Lines kept by the removal scan never start with the FAILED_AT
heading. -/
theorem removeGo_no_marker :
    ∀ (L : List String) (b : Bool) (l : String), l ∈ removeGo b L →
      (("## FAILED_AT:").data).isPrefixOf l.data = false := by
  intro L
  induction L with
  | nil => intro b l h; exact absurd h (List.not_mem_nil l)
  | cons x ls ih =>
    intro b l h
    rw [removeGo] at h
    split at h
    · exact ih true l h
    · split at h
      · rename_i h1 h2
        rcases List.mem_cons.1 h with rfl | h3
        · simp only [Bool.not_eq_true] at h1
          exact h1
        · exact ih false l h3
      · split at h
        · exact ih true l h
        · rename_i h1 h2 h3
          rcases List.mem_cons.1 h with rfl | h4
          · simp only [Bool.not_eq_true] at h1
            exact h1
          · exact ih false l h4

/-- The removal scan is the identity on content without FAILED_AT
heading lines. -/
theorem removeGo_id :
    ∀ (L : List String),
      (∀ l ∈ L, (("## FAILED_AT:").data).isPrefixOf l.data = false) →
      removeGo false L = L := by
  intro L
  induction L with
  | nil => intro _; rfl
  | cons x ls ih =>
    intro h
    have hx := h x (List.mem_cons_self x ls)
    have hrest : removeGo false ls = ls :=
      ih (fun l hl => h l (List.mem_cons_of_mem x hl))
    rw [removeGo]
    by_cases h2 : (("##").data).isPrefixOf x.data = true
    · simp [hx, h2, hrest]
    · simp [hx, h2, hrest]

/-- Removing FAILED_AT sections is idempotent. -/
theorem removeFailedSections_idem (L : List String) :
    removeFailedSections (removeFailedSections L) = removeFailedSections L := by
  cases L with
  | nil => rfl
  | cons l0 rest =>
    rw [removeFailedSections, removeFailedSections]
    have : removeGo false (removeGo false rest) = removeGo false rest :=
      removeGo_id (removeGo false rest) (fun l hl => removeGo_no_marker rest false l hl)
    rw [this]

/-- The content stripped of FAILED_AT sections has no removable section
left. -/
theorem removable_removeFailedSections_false (L : List String) :
    hasRemovableSection (removeFailedSections L) = false := by
  rw [hasRemovableSection]
  refine List.any_eq_false.2 ?_
  intro l hl
  cases L with
  | nil => exact absurd hl (by simp [removeFailedSections])
  | cons l0 rest =>
    rw [removeFailedSections] at hl
    simp only [List.drop_succ_cons, List.drop_zero] at hl
    simp [removeGo_no_marker rest false l hl]

/-- Finding an entry by path commutes with a path-preserving map. -/
theorem find?_entry_map (g : FEntry → FEntry)
    (hg : ∀ e, (g e).dir = e.dir ∧ (g e).tid = e.tid) (d tid : String) :
    ∀ (fs : List FEntry),
      List.find? (fun e => e.dir = d ∧ e.tid = tid) (fs.map g) =
        (List.find? (fun e => e.dir = d ∧ e.tid = tid) fs).map g := by
  intro fs
  induction fs with
  | nil => rfl
  | cons e fs ih =>
    by_cases hp : (e.dir = d ∧ e.tid = tid)
    · rw [List.map_cons,
        List.find?_cons_of_pos _ (by simp [(hg e).1, (hg e).2, hp]),
        List.find?_cons_of_pos _ (by simp [hp])]
      rfl
    · rw [List.map_cons,
        List.find?_cons_of_neg _ (by simp [(hg e).1, (hg e).2, hp]),
        List.find?_cons_of_neg _ (by simp [hp]), ih]

/-- Path lookup after a write: the found entry is rewritten exactly
when it sits at the written path. -/
theorem getEntry_writeFileAt (fs : List FEntry) (dw tw d tid : String)
    (L : List String) (n : Int) :
    getEntry (writeFileAt fs dw tw L n) d tid =
      (getEntry fs d tid).map (fun e =>
        if e.dir = dw ∧ e.tid = tw then ⟨e.dir, e.tid, ⟨n, L⟩⟩ else e) := by
  unfold getEntry writeFileAt
  exact find?_entry_map _ (fun e => by by_cases h : (e.dir = dw ∧ e.tid = tw) <;> simp [h])
    d tid fs

/-- A found entry sits at the looked-up path. -/
theorem getEntry_path {fs : List FEntry} {d tid : String} {e : FEntry}
    (h : getEntry fs d tid = some e) : e.dir = d ∧ e.tid = tid := by
  have := List.find?_some h
  simpa using this

/-- A found entry is a member of the filesystem. -/
theorem getEntry_mem {fs : List FEntry} {d tid : String} {e : FEntry}
    (h : getEntry fs d tid = some e) : e ∈ fs :=
  List.mem_of_find?_eq_some h

/-- Members of a written filesystem come from the original one,
rewritten exactly at the written path. -/
theorem mem_writeFileAt {fs : List FEntry} {dw tw : String} {L : List String}
    {n : Int} {e2 : FEntry} (h : e2 ∈ writeFileAt fs dw tw L n) :
    ∃ e1 ∈ fs, e2.dir = e1.dir ∧ e2.tid = e1.tid ∧
      (e2 = e1 ∨ (e2 = ⟨e1.dir, e1.tid, ⟨n, L⟩⟩ ∧ e1.dir = dw ∧ e1.tid = tw)) := by
  rcases List.mem_map.1 h with ⟨e1, h1, he⟩
  by_cases hc : (e1.dir = dw ∧ e1.tid = tw)
  · rw [if_pos hc] at he
    exact ⟨e1, h1, by rw [← he], by rw [← he], Or.inr ⟨he.symm, hc.1, hc.2⟩⟩
  · rw [if_neg hc] at he
    exact ⟨e1, h1, by rw [he], by rw [he], Or.inl he.symm⟩

/-- Writes preserve the path of every entry, hence path distinctness. -/
theorem pairwise_writeFileAt {fs : List FEntry} {dw tw : String} {L : List String}
    {n : Int} (h : fs.Pairwise (fun a b => ¬(a.dir = b.dir ∧ a.tid = b.tid))) :
    (writeFileAt fs dw tw L n).Pairwise (fun a b => ¬(a.dir = b.dir ∧ a.tid = b.tid)) := by
  refine List.pairwise_map.2 (h.imp ?_)
  intro a b hab hc
  have ha : ∀ (x : FEntry),
      (if x.dir = dw ∧ x.tid = tw then (⟨x.dir, x.tid, ⟨n, L⟩⟩ : FEntry) else x).dir = x.dir ∧
      (if x.dir = dw ∧ x.tid = tw then (⟨x.dir, x.tid, ⟨n, L⟩⟩ : FEntry) else x).tid = x.tid := by
    intro x
    by_cases hx : (x.dir = dw ∧ x.tid = tw) <;> simp [hx]
  rw [(ha a).1, (ha a).2, (ha b).1, (ha b).2] at hc
  exact hab hc

/-- Two members of a path-distinct filesystem at the same path are the
same entry. -/
theorem path_unique {fs : List FEntry}
    (hp : fs.Pairwise (fun a b => ¬(a.dir = b.dir ∧ a.tid = b.tid))) :
    ∀ {e1 e2 : FEntry}, e1 ∈ fs → e2 ∈ fs → e1.dir = e2.dir → e1.tid = e2.tid →
      e1 = e2 := by
  induction fs with
  | nil => intro e1 e2 h1 _ _ _; exact absurd h1 (List.not_mem_nil e1)
  | cons x fs ih =>
    intro e1 e2 h1 h2 hd ht
    rcases List.pairwise_cons.1 hp with ⟨hx, hfs⟩
    rcases List.mem_cons.1 h1 with rfl | h1t
    · rcases List.mem_cons.1 h2 with rfl | h2t
      · rfl
      · exact absurd ⟨hd, ht⟩ (hx e2 h2t)
    · rcases List.mem_cons.1 h2 with rfl | h2t
      · exact absurd ⟨hd.symm, ht.symm⟩ (hx e1 h1t)
      · exact ih hfs h1t h2t hd ht

/-- staleStep when the mirror file is absent. -/
theorem staleStep_none {t : Task} {w : World}
    (h : getEntry w.files t.queue t.id = none) : staleStep t w = (0, w) := by
  unfold staleStep
  simp only [h]

/-- staleStep when the mirror file has no FAILED_AT marker. -/
theorem staleStep_clean {t : Task} {w : World} {e : FEntry}
    (h : getEntry w.files t.queue t.id = some e)
    (hm : hasFailedSub e.file.lines = false) : staleStep t w = (0, w) := by
  unfold staleStep
  simp only [h, hm]
  simp

/-- staleStep when the mirror file has a FAILED_AT marker: the file is
rewritten with the stripped content and a fresh modification time. -/
theorem staleStep_write {t : Task} {w : World} {e : FEntry}
    (h : getEntry w.files t.queue t.id = some e)
    (hm : hasFailedSub e.file.lines = true) :
    staleStep t w = (1,
      { w with
          files := writeFileAt w.files t.queue t.id (removeFailedSections e.file.lines) w.now,
          log := w.log ++ [⟨"stale-error", t.id⟩] }) := by
  unfold staleStep
  simp only [h, hm]
  simp

/-- The cleanup loop never touches the store, the history, the agents,
the quarantine or the clock. -/
theorem staleGo_store :
    ∀ (ts : List Task) (w : World),
      (staleGo ts w).2.tasks = w.tasks ∧ (staleGo ts w).2.history = w.history ∧
      (staleGo ts w).2.agents = w.agents ∧ (staleGo ts w).2.quarantine = w.quarantine ∧
      (staleGo ts w).2.now = w.now
  | [], w => ⟨rfl, rfl, rfl, rfl, rfl⟩
  | t :: ts, w => by
    have hstep : (staleStep t w).2.tasks = w.tasks ∧ (staleStep t w).2.history = w.history ∧
        (staleStep t w).2.agents = w.agents ∧ (staleStep t w).2.quarantine = w.quarantine ∧
        (staleStep t w).2.now = w.now := by
      unfold staleStep
      cases h : getEntry w.files t.queue t.id with
      | none => exact ⟨rfl, rfl, rfl, rfl, rfl⟩
      | some e =>
        by_cases hm : hasFailedSub e.file.lines = true
        · simp [hm]
        · simp [hm]
    have ih := staleGo_store ts (staleStep t w).2
    refine ⟨?_, ?_, ?_, ?_, ?_⟩ <;>
      simp [staleGo, ih.1, ih.2.1, ih.2.2.1, ih.2.2.2.1, ih.2.2.2.2,
        hstep.1, hstep.2.1, hstep.2.2.1, hstep.2.2.2.1, hstep.2.2.2.2]

/-- Tracking one path through the cleanup loop: the entry survives with
its original or stripped content, and when some processed row targets
the path and the content has the marker, the final content is exactly
the stripped one. -/
theorem staleGo_track :
    ∀ (ts : List Task) (w : World) (d tid : String) (e : FEntry),
      getEntry w.files d tid = some e →
      ∃ e2, getEntry (staleGo ts w).2.files d tid = some e2 ∧
        e2.dir = e.dir ∧ e2.tid = e.tid ∧
        (e2 = e ∨ (e2.file.lines = removeFailedSections e.file.lines ∧
          e2.file.mtime = w.now)) ∧
        ((∃ t ∈ ts, t.queue = d ∧ t.id = tid) → hasFailedSub e.file.lines = true →
          e2.file.lines = removeFailedSections e.file.lines)
  | [], w, d, tid, e, h =>
    ⟨e, h, rfl, rfl, Or.inl rfl, fun ht _ => by
      rcases ht with ⟨t, hmem, _⟩
      exact absurd hmem (List.not_mem_nil t)⟩
  | t :: ts, w, d, tid, e, h => by
    by_cases hkey : (t.queue = d ∧ t.id = tid)
    · have hent : getEntry w.files t.queue t.id = some e := by
        rw [hkey.1, hkey.2]
        exact h
      by_cases hm : hasFailedSub e.file.lines = true
      · have hstep := staleStep_write hent hm
        have hpath := getEntry_path h
        have hfiles : (staleStep t w).2.files = writeFileAt w.files t.queue t.id
            (removeFailedSections e.file.lines) w.now := by
          rw [hstep]
        have hafter : getEntry (staleStep t w).2.files d tid =
            some ⟨e.dir, e.tid, ⟨w.now, removeFailedSections e.file.lines⟩⟩ := by
          rw [hfiles, getEntry_writeFileAt, h]
          simp [hpath.1, hpath.2, hkey.1, hkey.2]
        rcases staleGo_track ts (staleStep t w).2 d tid
            ⟨e.dir, e.tid, ⟨w.now, removeFailedSections e.file.lines⟩⟩ hafter with
          ⟨e2, he2, hd2, ht2, hcontent, _⟩
        have hnow : (staleStep t w).2.now = w.now := by rw [hstep]
        refine ⟨e2, by simpa [staleGo] using he2, hd2, ht2, ?_, ?_⟩
        · right
          rcases hcontent with rfl | ⟨hl, hmt⟩
          · exact ⟨rfl, rfl⟩
          · exact ⟨by rw [hl]; exact removeFailedSections_idem e.file.lines,
              by rw [hmt, hnow]⟩
        · intro _ _
          rcases hcontent with rfl | ⟨hl, _⟩
          · rfl
          · rw [hl]
            exact removeFailedSections_idem e.file.lines
      · have hm2 : hasFailedSub e.file.lines = false := by
          simpa using hm
        have hstep := staleStep_clean hent hm2
        rcases staleGo_track ts w d tid e h with ⟨e2, he2, hd2, ht2, hcontent, hfinal⟩
        refine ⟨e2, by simpa [staleGo, hstep] using he2, hd2, ht2, hcontent, ?_⟩
        intro _ hmm
        rw [hmm] at hm2
        exact absurd hm2 (by simp)
    · have hafter : getEntry (staleStep t w).2.files d tid = some e := by
        cases hent : getEntry w.files t.queue t.id with
        | none => rw [staleStep_none hent]; exact h
        | some ef =>
          by_cases hmf : hasFailedSub ef.file.lines = true
          · have hfiles : (staleStep t w).2.files = writeFileAt w.files t.queue t.id
                (removeFailedSections ef.file.lines) w.now := by
              rw [staleStep_write hent hmf]
            rw [hfiles, getEntry_writeFileAt, h]
            have hpath := getEntry_path h
            have hne : ¬(e.dir = t.queue ∧ e.tid = t.id) := by
              intro hc
              exact hkey ⟨hc.1.symm.trans hpath.1, hc.2.symm.trans hpath.2⟩
            simp [hne]
          · have hmf2 : hasFailedSub ef.file.lines = false := by simpa using hmf
            rw [staleStep_clean hent hmf2]
            exact h
      have hnow : (staleStep t w).2.now = w.now := by
        cases hent : getEntry w.files t.queue t.id with
        | none => rw [staleStep_none hent]
        | some ef =>
          by_cases hmf : hasFailedSub ef.file.lines = true
          · rw [staleStep_write hent hmf]
          · have hmf2 : hasFailedSub ef.file.lines = false := by simpa using hmf
            rw [staleStep_clean hent hmf2]
      rcases staleGo_track ts (staleStep t w).2 d tid e hafter with
        ⟨e2, he2, hd2, ht2, hcontent, hfinal⟩
      refine ⟨e2, by simpa [staleGo] using he2, hd2, ht2, ?_, ?_⟩
      · rcases hcontent with rfl | ⟨hl, hmt⟩
        · exact Or.inl rfl
        · exact Or.inr ⟨hl, by rw [hmt, hnow]⟩
      · intro htgt hmm
        rcases htgt with ⟨t0, hmem, ht0⟩
        rcases List.mem_cons.1 hmem with rfl | hmem2
        · exact absurd ⟨ht0.1, ht0.2⟩ hkey
        · exact hfinal ⟨t0, hmem2, ht0⟩ hmm

/-- Every file after the cleanup loop descends from an original file at
the same path, either untouched or stripped because some processed row
targeted that path. -/
theorem staleGo_files_mem :
    ∀ (ts : List Task) (w : World),
      w.files.Pairwise (fun a b => ¬(a.dir = b.dir ∧ a.tid = b.tid)) →
      ∀ e2 ∈ (staleGo ts w).2.files, ∃ e1 ∈ w.files,
        e2.dir = e1.dir ∧ e2.tid = e1.tid ∧
        (e2 = e1 ∨ (e2.file.lines = removeFailedSections e1.file.lines ∧
          e2.file.mtime = w.now ∧ ∃ t ∈ ts, t.queue = e1.dir ∧ t.id = e1.tid))
  | [], w, _, e2, h2 => ⟨e2, h2, rfl, rfl, Or.inl rfl⟩
  | t :: ts, w, hp, e2, h2 => by
    cases hent : getEntry w.files t.queue t.id with
    | none =>
      simp only [staleGo, staleStep_none hent] at h2
      rcases staleGo_files_mem ts w hp e2 h2 with ⟨e1, h1, hd, ht, hc⟩
      refine ⟨e1, h1, hd, ht, ?_⟩
      rcases hc with hc | ⟨hl, hm, t2, hm2, hq2⟩
      · exact Or.inl hc
      · exact Or.inr ⟨hl, hm, t2, List.mem_cons_of_mem t hm2, hq2⟩
    | some ef =>
      by_cases hmf : hasFailedSub ef.file.lines = true
      · have hstep := staleStep_write hent hmf
        simp only [staleGo, hstep] at h2
        have hpw : (writeFileAt w.files t.queue t.id
            (removeFailedSections ef.file.lines) w.now).Pairwise
            (fun a b => ¬(a.dir = b.dir ∧ a.tid = b.tid)) := pairwise_writeFileAt hp
        rcases staleGo_files_mem ts _ hpw e2 h2 with ⟨em, hmem, hd, ht, hc⟩
        rcases mem_writeFileAt hmem with ⟨e1, h1, hd1, ht1, hcase⟩
        have hefpath := getEntry_path hent
        refine ⟨e1, h1, hd.trans hd1, ht.trans ht1, ?_⟩
        rcases hcase with rfl | ⟨hew, hq1, ht1b⟩
        · rcases hc with rfl | ⟨hl, hm, t2, hm2, hq2⟩
          · exact Or.inl rfl
          · exact Or.inr ⟨hl, hm, t2, List.mem_cons_of_mem t hm2,
              hq2.1.trans hd1, hq2.2.trans ht1⟩
        · have he1ef : e1 = ef :=
            path_unique hp h1 (getEntry_mem hent) (hq1.trans hefpath.1.symm)
              (ht1b.trans hefpath.2.symm)
          rcases hc with rfl | ⟨hl, hm, t2, hm2, hq2⟩
          · refine Or.inr ⟨?_, ?_, t, List.mem_cons_self t ts, hq1.symm, ht1b.symm⟩
            · rw [hew, he1ef]
            · rw [hew]
          · refine Or.inr ⟨?_, hm, t, List.mem_cons_self t ts, hq1.symm, ht1b.symm⟩
            rw [hl, hew, he1ef]
            exact removeFailedSections_idem ef.file.lines
      · have hmf2 : hasFailedSub ef.file.lines = false := by simpa using hmf
        simp only [staleGo, staleStep_clean hent hmf2] at h2
        rcases staleGo_files_mem ts w hp e2 h2 with ⟨e1, h1, hd, ht, hc⟩
        refine ⟨e1, h1, hd, ht, ?_⟩
        rcases hc with hc | ⟨hl, hm, t2, hm2, hq2⟩
        · exact Or.inl hc
        · exact Or.inr ⟨hl, hm, t2, List.mem_cons_of_mem t hm2, hq2⟩

/-- Cleanup rows that all leave the world unchanged make the whole loop
a no-op. -/
theorem staleGo_noop :
    ∀ (ts : List Task) (w : World),
      (∀ t ∈ ts, staleStep t w = (0, w)) → staleGo ts w = (0, w)
  | [], _, _ => rfl
  | t :: ts, w, h => by
    have h0 := h t (List.mem_cons_self t ts)
    have hrest := staleGo_noop ts w (fun t2 ht2 => h t2 (List.mem_cons_of_mem t ht2))
    simp [staleGo, h0, hrest]

/-- Content with a removable section is changed by the removal. -/
theorem removeFailedSections_ne {L : List String}
    (h : hasRemovableSection L = true) : removeFailedSections L ≠ L := by
  intro heq
  have := removable_removeFailedSections_false L
  rw [heq, h] at this
  exact absurd this (by simp)

/-- C8 amended: over a filesystem with one file per path, for every
task with attempt_count positive whose store queue is incoming or
claimed and whose mirror file holds a FAILED_AT section starting after
the first line, the stale-error cleanup rewrites the file to exactly
the content with those sections removed (from each FAILED_AT heading
line to the next heading or end of file); every file it leaves is
either byte-identical to the original or the stripped content of such
a retried task's file; and all store fields and the history are
unchanged.  A section opening on the very first line of the file is
not removed (see the counterexample), which is the one correction to
the claim. -/
theorem stale_cleanup_exact (w : World)
    (HP : w.files.Pairwise (fun a b => ¬(a.dir = b.dir ∧ a.tid = b.tid))) :
    ((fix_stale_errors w).2.tasks = w.tasks ∧
     (fix_stale_errors w).2.history = w.history) ∧
    (∀ t ∈ w.tasks, 0 < t.attempt_count →
      (t.queue = "incoming" ∨ t.queue = "claimed") →
      ∀ e, getEntry w.files t.queue t.id = some e →
        hasRemovableSection e.file.lines = true →
        getEntry (fix_stale_errors w).2.files t.queue t.id =
          some ⟨e.dir, e.tid, ⟨w.now, removeFailedSections e.file.lines⟩⟩) ∧
    (∀ e2 ∈ (fix_stale_errors w).2.files, ∃ e1 ∈ w.files,
      e2.dir = e1.dir ∧ e2.tid = e1.tid ∧
      (e2 = e1 ∨ (e2.file.lines = removeFailedSections e1.file.lines ∧
        ∃ t ∈ w.tasks, 0 < t.attempt_count ∧
          (t.queue = "incoming" ∨ t.queue = "claimed") ∧
          t.queue = e1.dir ∧ t.id = e1.tid))) := by
  refine ⟨⟨(staleGo_store _ w).1, (staleGo_store _ w).2.1⟩, ?_, ?_⟩
  · intro t ht h1 h2 e he hrem
    have hmem : t ∈ eligibleRetried w.tasks := by
      refine List.mem_filter.2 ⟨ht, ?_⟩
      simp [h1]
      rcases h2 with h2 | h2 <;> simp [h2]
    rcases staleGo_track (eligibleRetried w.tasks) w t.queue t.id e he with
      ⟨e2, he2, hd2, ht2, hcont, hfinal⟩
    have hlines : e2.file.lines = removeFailedSections e.file.lines :=
      hfinal ⟨t, hmem, rfl, rfl⟩ (hasFailedSub_of_removable hrem)
    have hmt : e2.file.mtime = w.now := by
      rcases hcont with rfl | ⟨_, hmt⟩
      · exact absurd hlines.symm (removeFailedSections_ne hrem)
      · exact hmt
    rcases e2 with ⟨d2, t2, ⟨m2, l2⟩⟩
    dsimp at hd2 ht2 hlines hmt
    unfold fix_stale_errors
    rw [he2, hd2, ht2, hlines, hmt]
  · intro e2 h2
    rcases staleGo_files_mem (eligibleRetried w.tasks) w HP e2 h2 with
      ⟨e1, h1, hd, ht, hc⟩
    refine ⟨e1, h1, hd, ht, ?_⟩
    rcases hc with hc | ⟨hl, _, t, hmem, hq⟩
    · exact Or.inl hc
    · have := List.mem_filter.1 hmem
      refine Or.inr ⟨hl, t, this.1, ?_, ?_, hq.1, hq.2⟩
      · have h3 := this.2
        simp at h3
        exact h3.1
      · have h3 := this.2
        simp at h3
        exact h3.2

/-- C8 counterexample: task s8 has attempt_count 1, sits in incoming
and its file contains a FAILED_AT section (its first line), yet after
the cleanup the file content still carries the section, because the
removal pattern needs a newline before the heading; the cleanup even
counts the file as fixed. -/
theorem stale_first_line_counterexample :
    getEntry (fix_stale_errors W8x).2.files ("incoming") ("s8") =
      some ⟨"incoming", "s8", ⟨77, ["## FAILED_AT: 2024-01-01", "oops"]⟩⟩ ∧
    (fix_stale_errors W8x).1 = 1 := by
  exact ⟨by decide, by decide⟩

/-- Witness for the amended C8: the cleanup strips exactly the
FAILED_AT section from the file of s9. -/
theorem stale_cleanup_exact_witness :
    getEntry (fix_stale_errors W8w).2.files ("incoming") ("s9") =
      some ⟨"incoming", "s9",
        ⟨500, removeFailedSections ["# [TASK-s9] t", "## FAILED_AT: 2020", "junk"]⟩⟩ :=
  (stale_cleanup_exact W8w (by decide)).2.1
    ⟨"s9", "incoming", none, none, 1, "implement", "P1", "main", none, none⟩
    (by decide) (by decide) (Or.inl rfl)
    ⟨"incoming", "s9", ⟨0, ["# [TASK-s9] t", "## FAILED_AT: 2020", "junk"]⟩⟩
    (by decide) (by decide)

/-- Building the task dict by a left fold is choosing the last matching
row. -/
theorem dbQueue_aux (tid : String) :
    ∀ (ts : List Task) (acc : Option String),
      ts.foldl (fun acc t => if t.id = tid then some t.queue else acc) acc =
        match (ts.filter (fun t => t.id = tid)).getLast? with
        | some t => some t.queue
        | none => acc
  | [], acc => rfl
  | t :: ts, acc => by
    rw [List.foldl_cons, dbQueue_aux tid ts]
    by_cases ht : t.id = tid
    · rw [List.filter_cons_of_pos (by simp [ht]), getLast?_cons_optOr]
      cases h : (ts.filter (fun t => t.id = tid)).getLast? <;> simp [optOr, ht]
    · rw [List.filter_cons_of_neg (by simp [ht])]
      simp [ht]

/-- dbQueue is the queue of the last matching row. -/
theorem dbQueue_eq (ts : List Task) (tid : String) :
    dbQueue ts tid = ((ts.filter (fun t => t.id = tid)).getLast?).map (fun t => t.queue) := by
  rw [dbQueue, dbQueue_aux]
  cases h : (ts.filter (fun t => t.id = tid)).getLast? <;> simp

/-- A task id is absent from the table exactly when its dict entry is
missing. -/
theorem dbHasId_false_iff (ts : List Task) (tid : String) :
    dbHasId ts tid = false ↔ dbQueue ts tid = none := by
  rw [dbQueue_eq, Option.map_eq_none', getLast?_eq_none_iff_nil,
    List.filter_eq_nil_iff, dbHasId, List.any_eq_false]

/-- Filtering by id commutes with an id-preserving map. -/
theorem filter_map_idfix (g : Task → Task) (hg : ∀ t, (g t).id = t.id) (tid : String) :
    ∀ (ts : List Task),
      (ts.map g).filter (fun t => t.id = tid) =
        (ts.filter (fun t => t.id = tid)).map g
  | [] => rfl
  | t :: ts => by
    by_cases ht : t.id = tid
    · rw [List.map_cons, List.filter_cons_of_pos (by simp [hg, ht]),
        List.filter_cons_of_pos (by simp [ht]), List.map_cons,
        filter_map_idfix g hg tid ts]
    · rw [List.map_cons, List.filter_cons_of_neg (by simp [hg, ht]),
        List.filter_cons_of_neg (by simp [ht]), filter_map_idfix g hg tid ts]

/-- getLast? commutes with map. -/
theorem getLast?_map {α β : Type} (f : α → β) :
    ∀ (l : List α), (l.map f).getLast? = (l.getLast?).map f
  | [] => rfl
  | a :: l => by
    rw [List.map_cons, getLast?_cons_optOr, getLast?_cons_optOr, optOr_map,
      getLast?_map f l]
    rfl

/-- Updating the queue of one task id rewrites exactly that id's dict
entry. -/
theorem dbQueue_map_upd (iid q tid : String) (ts : List Task) :
    dbQueue (ts.map (fun t => if t.id = iid then { t with queue := q } else t)) tid =
      if tid = iid then (dbQueue ts tid).map (fun _ => q) else dbQueue ts tid := by
  have hg : ∀ t : Task, (if t.id = iid then { t with queue := q } else t).id = t.id := by
    intro t
    by_cases ht : t.id = iid <;> simp [ht]
  rw [dbQueue_eq, filter_map_idfix _ hg, getLast?_map, dbQueue_eq]
  cases hlast : (ts.filter (fun t => t.id = tid)).getLast? with
  | none => by_cases htk : tid = iid <;> simp [htk]
  | some u =>
    have hu : u.id = tid := by
      have := List.mem_filter.1 (getLast?_mem_self hlast)
      simpa using this.2
    by_cases htk : tid = iid
    · simp [hu, htk]
    · have : ¬(u.id = iid) := by rw [hu]; exact htk
      simp [this, htk]

/-- An id-preserving map does not change id membership. -/
theorem dbHasId_map_idfix (g : Task → Task) (hg : ∀ t, (g t).id = t.id)
    (ts : List Task) (tid : String) :
    dbHasId (ts.map g) tid = dbHasId ts tid := by
  rw [dbHasId, dbHasId, List.any_map]
  congr 1
  funext t
  simp [Function.comp, hg]

/-- dict entries of appended rows win over the original table. -/
theorem dbQueue_append (ts new : List Task) (tid : String) :
    dbQueue (ts ++ new) tid =
      match dbQueue new tid with
      | some q => some q
      | none => dbQueue ts tid := by
  rw [dbQueue, List.foldl_append, dbQueue_aux, dbQueue_eq]
  cases h : (new.filter (fun t => t.id = tid)).getLast? <;> simp [dbQueue]

/-- Membership of an id in an appended table. -/
theorem dbHasId_append (ts new : List Task) (tid : String) :
    dbHasId (ts ++ new) tid = (dbHasId ts tid || dbHasId new tid) := by
  rw [dbHasId, dbHasId, dbHasId, List.any_append]

/-- A dict entry names the queue of some matching row. -/
theorem dbQueue_some_row {ts : List Task} {tid q : String}
    (h : dbQueue ts tid = some q) : ∃ t ∈ ts, t.id = tid ∧ t.queue = q := by
  rw [dbQueue_eq] at h
  cases hlast : (ts.filter (fun t => t.id = tid)).getLast? with
  | none => rw [hlast] at h; exact absurd h (by simp)
  | some u =>
    rw [hlast] at h
    have hmem := List.mem_filter.1 (getLast?_mem_self hlast)
    refine ⟨u, hmem.1, by simpa using hmem.2, ?_⟩
    simpa using h

/-- Successful branch of fix_file_db_mismatch, spelled out. -/
theorem fix_mismatch_step {i : FileMismatch} {w : World}
    (hex : fileExistsAt w.files i.file_queue i.task_id = true) :
    fix_file_db_mismatch i w = (true,
      { w with
          tasks := w.tasks.map (fun t =>
            if t.id = i.task_id then { t with queue := i.file_queue } else t),
          history := w.history ++ [⟨i.task_id, "file_db_sync", "queue-manager",
            mkSyncDetails i.db_queue i.file_queue⟩],
          log := w.log ++ [⟨"file-db-sync", i.task_id⟩] }) := by
  simp [fix_file_db_mismatch, hex, update_task_queue]

/-- Nested queue updates collapse to the last one. -/
theorem task_queue_upd_collapse (t : Task) (a b : String) :
    ({ ({ t with queue := a } : Task) with queue := b } : Task) =
      { t with queue := b } := rfl

/-- Effect of the mismatch-fix loop: the filesystem, agents, clock and
quarantine are untouched, the dict entry of every mismatched task id is
rewritten to its issue's file queue, id membership is unchanged, and
every resulting row is an original row with at most its queue replaced
by some issue's file queue. -/
theorem applyMismatchFixes_spec :
    ∀ (is : List FileMismatch) (w : World),
      (∀ i ∈ is, fileExistsAt w.files i.file_queue i.task_id = true) →
      is.Pairwise (fun a b => a.task_id ≠ b.task_id) →
      ((applyMismatchFixes is w).2.files = w.files ∧
       (applyMismatchFixes is w).2.agents = w.agents ∧
       (applyMismatchFixes is w).2.now = w.now ∧
       (applyMismatchFixes is w).2.quarantine = w.quarantine) ∧
      (∀ tid, dbQueue (applyMismatchFixes is w).2.tasks tid =
        match is.find? (fun i => i.task_id = tid) with
        | some i => (dbQueue w.tasks tid).map (fun _ => i.file_queue)
        | none => dbQueue w.tasks tid) ∧
      (∀ tid, dbHasId (applyMismatchFixes is w).2.tasks tid = dbHasId w.tasks tid) ∧
      (∀ t2 ∈ (applyMismatchFixes is w).2.tasks, ∃ t1 ∈ w.tasks,
        t2 = t1 ∨ ∃ i ∈ is, t2 = { t1 with queue := i.file_queue })
  | [], w, _, _ => by
    refine ⟨⟨rfl, rfl, rfl, rfl⟩, fun tid => rfl, fun tid => rfl, ?_⟩
    intro t2 h2
    exact ⟨t2, h2, Or.inl rfl⟩
  | i :: is, w, hex, hpw => by
    have hexi := hex i (List.mem_cons_self i is)
    have hstep := fix_mismatch_step hexi
    have hsplit : (applyMismatchFixes (i :: is) w).2 =
        (applyMismatchFixes is (fix_file_db_mismatch i w).2).2 := by
      simp [applyMismatchFixes]
    rcases List.pairwise_cons.1 hpw with ⟨hhead, htail⟩
    have hex2 : ∀ j ∈ is,
        fileExistsAt (fix_file_db_mismatch i w).2.files j.file_queue j.task_id = true := by
      intro j hj
      rw [hstep]
      exact hex j (List.mem_cons_of_mem i hj)
    have IH := applyMismatchFixes_spec is (fix_file_db_mismatch i w).2 hex2 htail
    have htasks1 : (fix_file_db_mismatch i w).2.tasks =
        w.tasks.map (fun t =>
          if t.id = i.task_id then { t with queue := i.file_queue } else t) := by
      rw [hstep]
    have hfiles1 : (fix_file_db_mismatch i w).2.files = w.files := by rw [hstep]
    have hagents1 : (fix_file_db_mismatch i w).2.agents = w.agents := by rw [hstep]
    have hnow1 : (fix_file_db_mismatch i w).2.now = w.now := by rw [hstep]
    have hquar1 : (fix_file_db_mismatch i w).2.quarantine = w.quarantine := by rw [hstep]
    refine ⟨⟨?_, ?_, ?_, ?_⟩, ?_, ?_, ?_⟩
    · rw [hsplit, IH.1.1, hfiles1]
    · rw [hsplit, IH.1.2.1, hagents1]
    · rw [hsplit, IH.1.2.2.1, hnow1]
    · rw [hsplit, IH.1.2.2.2, hquar1]
    · intro tid
      rw [hsplit, IH.2.1 tid, htasks1]
      by_cases hit : i.task_id = tid
      · have hnone : is.find? (fun j => j.task_id = tid) = none := by
          rw [List.find?_eq_none]
          intro j hj
          simp only [decide_eq_true_eq]
          intro hj2
          exact (hhead j hj) (hit.trans hj2.symm)
        rw [hnone, List.find?_cons_of_pos _ (by simp [hit]), dbQueue_map_upd,
          if_pos hit.symm]
      · rw [List.find?_cons_of_neg _ (by simp [hit])]
        have hne : ¬(tid = i.task_id) := fun h => hit h.symm
        cases hfind : is.find? (fun j => j.task_id = tid) with
        | none => rw [dbQueue_map_upd, if_neg hne]
        | some j => rw [dbQueue_map_upd, if_neg hne]
    · intro tid
      rw [hsplit, IH.2.2.1 tid, htasks1, dbHasId_map_idfix]
      intro t
      by_cases ht : t.id = i.task_id <;> simp [ht]
    · intro t2 h2
      rw [hsplit] at h2
      rcases IH.2.2.2 t2 h2 with ⟨tm, hm, hcase⟩
      rw [htasks1] at hm
      rcases List.mem_map.1 hm with ⟨t1, h1, ht1⟩
      by_cases h1i : t1.id = i.task_id
      · rw [if_pos h1i] at ht1
        rcases hcase with rfl | ⟨j, hj, rfl⟩
        · exact ⟨t1, h1, Or.inr ⟨i, List.mem_cons_self i is, ht1.symm⟩⟩
        · refine ⟨t1, h1, Or.inr ⟨j, List.mem_cons_of_mem i hj, ?_⟩⟩
          rw [← ht1, task_queue_upd_collapse]
      · rw [if_neg h1i] at ht1
        rcases hcase with rfl | ⟨j, hj, rfl⟩
        · exact ⟨t1, h1, Or.inl ht1.symm⟩
        · exact ⟨t1, h1, Or.inr ⟨j, List.mem_cons_of_mem i hj, by rw [ht1]⟩⟩

/-- Missing-file branch of fix_orphan_file. -/
theorem fix_orphan_none {o : OrphanFile} {w : World}
    (h : getEntry w.files o.file_queue o.task_id = none) :
    fix_orphan_file o w = (false, { w with log := w.log ++ [⟨"escalate", o.task_id⟩] }) := by
  simp only [fix_orphan_file, h]

/-- Quarantine branch of fix_orphan_file. -/
theorem fix_orphan_quarantine {o : OrphanFile} {w : World} {e : FEntry}
    (h : getEntry w.files o.file_queue o.task_id = some e)
    (hp : parse_task_metadata e.file.lines = none) :
    fix_orphan_file o w = (false,
      { w with
          files := w.files.filter (fun e2 => ¬(e2.dir = o.file_queue ∧ e2.tid = o.task_id)),
          quarantine := w.quarantine ++ [e],
          log := w.log ++ [⟨"escalate", o.task_id⟩] }) := by
  simp only [fix_orphan_file, h, hp]

/-- Registration branch of fix_orphan_file. -/
theorem fix_orphan_register {o : OrphanFile} {w : World} {e : FEntry} {m : TaskMeta}
    (h : getEntry w.files o.file_queue o.task_id = some e)
    (hp : parse_task_metadata e.file.lines = some m) :
    fix_orphan_file o w = (true,
      { w with
          tasks := w.tasks ++ [⟨o.task_id, o.file_queue, none, none, 0, m.role,
            m.priority.getD ("P1"), m.branch.getD ("main"), m.blocked_by, m.project⟩],
          log := w.log ++ [⟨"orphan-fix", o.task_id⟩] }) := by
  simp only [fix_orphan_file, h, hp, create_task]

/-- Finding survives a filter that keeps everything the predicate can
match. -/
theorem find?_filter_keep {α : Type} (p q : α → Bool)
    (h : ∀ e, p e = true → q e = true) :
    ∀ (l : List α), List.find? p (l.filter q) = List.find? p l
  | [] => rfl
  | e :: l => by
    by_cases hq : q e = true
    · rw [List.filter_cons_of_pos hq]
      by_cases hp : p e = true
      · rw [List.find?_cons_of_pos _ hp, List.find?_cons_of_pos _ hp]
      · rw [List.find?_cons_of_neg _ (by simpa using hp),
          List.find?_cons_of_neg _ (by simpa using hp), find?_filter_keep p q h l]
    · rw [List.filter_cons_of_neg (by simpa using hq)]
      have hp : ¬(p e = true) := fun hpe => hq (h e hpe)
      rw [List.find?_cons_of_neg _ (by simpa using hp), find?_filter_keep p q h l]

/-- Effect of the orphan-fix loop: agents and clock untouched, the
filesystem only shrinks, the store only grows by fresh unclaimed rows
whose queue is their file's directory, and each detected orphan with a
present file is either registered (parse success) or has its file
removed from the queue directories (parse failure). -/
theorem applyOrphanFixes_spec :
    ∀ (os : List OrphanFile) (w : World),
      (∀ o ∈ os, dbHasId w.tasks o.task_id = false) →
      os.Pairwise (fun a b => a.task_id ≠ b.task_id) →
      ((applyOrphanFixes os w).2.agents = w.agents ∧
       (applyOrphanFixes os w).2.now = w.now ∧
       List.Sublist (applyOrphanFixes os w).2.files w.files) ∧
      (∃ new, (applyOrphanFixes os w).2.tasks = w.tasks ++ new ∧
        ∀ t ∈ new, (∃ o ∈ os, t.id = o.task_id ∧ t.queue = o.file_queue) ∧
          t.claimed_by = none ∧ t.attempt_count = 0) ∧
      (∀ o ∈ os, ∀ e, getEntry w.files o.file_queue o.task_id = some e →
        (parse_task_metadata e.file.lines ≠ none →
          dbHasId (applyOrphanFixes os w).2.tasks o.task_id = true) ∧
        (parse_task_metadata e.file.lines = none →
          ∀ e2 ∈ (applyOrphanFixes os w).2.files,
            ¬(e2.dir = o.file_queue ∧ e2.tid = o.task_id)))
  | [], w, _, _ => by
    refine ⟨⟨rfl, rfl, List.Sublist.refl _⟩, ⟨[], by simp [applyOrphanFixes], by simp⟩, ?_⟩
    intro o ho
    exact absurd ho (List.not_mem_nil o)
  | o :: os, w, hdb, hpw => by
    rcases List.pairwise_cons.1 hpw with ⟨hhead, htail⟩
    have hsplit : (applyOrphanFixes (o :: os) w).2 =
        (applyOrphanFixes os (fix_orphan_file o w).2).2 := by
      simp [applyOrphanFixes]
    cases hent0 : getEntry w.files o.file_queue o.task_id with
    | none =>
      have hstep := fix_orphan_none hent0
      have hfiles1 : (fix_orphan_file o w).2.files = w.files := by rw [hstep]
      have htasks1 : (fix_orphan_file o w).2.tasks = w.tasks := by rw [hstep]
      have hdb2 : ∀ o2 ∈ os, dbHasId (fix_orphan_file o w).2.tasks o2.task_id = false := by
        intro o2 ho2
        rw [htasks1]
        exact hdb o2 (List.mem_cons_of_mem o ho2)
      have IH := applyOrphanFixes_spec os (fix_orphan_file o w).2 hdb2 htail
      refine ⟨⟨?_, ?_, ?_⟩, ?_, ?_⟩
      · rw [hsplit, IH.1.1, hstep]
      · rw [hsplit, IH.1.2.1, hstep]
      · rw [hsplit]
        exact hfiles1 ▸ IH.1.2.2
      · rcases IH.2.1 with ⟨new, hnew, hprops⟩
        refine ⟨new, by rw [hsplit, hnew, htasks1], ?_⟩
        intro t ht
        rcases hprops t ht with ⟨⟨o2, ho2, hto⟩, hcb, hac⟩
        exact ⟨⟨o2, List.mem_cons_of_mem o ho2, hto⟩, hcb, hac⟩
      · intro o2 ho2 e2 hent2
        rcases List.mem_cons.1 ho2 with rfl | ho2t
        · rw [hent0] at hent2
          exact absurd hent2 (by simp)
        · have hent2b : getEntry (fix_orphan_file o w).2.files o2.file_queue o2.task_id =
              some e2 := by rw [hfiles1]; exact hent2
          have := IH.2.2 o2 ho2t e2 hent2b
          rw [hsplit]
          exact this
    | some e =>
      cases hparse : parse_task_metadata e.file.lines with
      | none =>
        have hstep := fix_orphan_quarantine hent0 hparse
        have hfiles1 : (fix_orphan_file o w).2.files =
            w.files.filter (fun e2 => ¬(e2.dir = o.file_queue ∧ e2.tid = o.task_id)) := by
          rw [hstep]
        have htasks1 : (fix_orphan_file o w).2.tasks = w.tasks := by rw [hstep]
        have hdb2 : ∀ o2 ∈ os, dbHasId (fix_orphan_file o w).2.tasks o2.task_id = false := by
          intro o2 ho2
          rw [htasks1]
          exact hdb o2 (List.mem_cons_of_mem o ho2)
        have IH := applyOrphanFixes_spec os (fix_orphan_file o w).2 hdb2 htail
        refine ⟨⟨?_, ?_, ?_⟩, ?_, ?_⟩
        · rw [hsplit, IH.1.1, hstep]
        · rw [hsplit, IH.1.2.1, hstep]
        · rw [hsplit]
          exact (hfiles1 ▸ IH.1.2.2).trans (List.filter_sublist w.files)
        · rcases IH.2.1 with ⟨new, hnew, hprops⟩
          refine ⟨new, by rw [hsplit, hnew, htasks1], ?_⟩
          intro t ht
          rcases hprops t ht with ⟨⟨o2, ho2, hto⟩, hcb, hac⟩
          exact ⟨⟨o2, List.mem_cons_of_mem o ho2, hto⟩, hcb, hac⟩
        · intro o2 ho2 e2 hent2
          rcases List.mem_cons.1 ho2 with rfl | ho2t
          · rw [hent0] at hent2
            cases hent2
            refine ⟨fun hne => absurd hparse hne, fun _ => ?_⟩
            intro e3 he3 hc
            rw [hsplit] at he3
            have he3b := List.Sublist.mem he3 IH.1.2.2
            rw [hfiles1] at he3b
            have hm3 := (List.mem_filter.1 he3b).2
            rw [decide_eq_true_eq] at hm3
            exact hm3 hc
          · have hkeep : List.find?
                (fun e3 => e3.dir = o2.file_queue ∧ e3.tid = o2.task_id)
                (w.files.filter (fun e3 => ¬(e3.dir = o.file_queue ∧ e3.tid = o.task_id))) =
                List.find? (fun e3 => e3.dir = o2.file_queue ∧ e3.tid = o2.task_id) w.files := by
              refine find?_filter_keep _ _ ?_ w.files
              intro e3 hp3
              rw [decide_eq_true_eq] at hp3
              rw [decide_eq_true_eq]
              intro hc
              exact (hhead o2 ho2t) (by rw [← hc.2, hp3.2])
            have hent2b : getEntry (fix_orphan_file o w).2.files o2.file_queue o2.task_id =
                some e2 := by
              rw [hfiles1]
              unfold getEntry
              rw [hkeep]
              exact hent2
            have := IH.2.2 o2 ho2t e2 hent2b
            rw [hsplit]
            exact this
      | some m =>
        have hstep := fix_orphan_register hent0 hparse
        have hrow : (fix_orphan_file o w).2.tasks =
            w.tasks ++ [⟨o.task_id, o.file_queue, none, none, 0, m.role,
              m.priority.getD ("P1"), m.branch.getD ("main"), m.blocked_by, m.project⟩] := by
          rw [hstep]
        have hfiles1 : (fix_orphan_file o w).2.files = w.files := by rw [hstep]
        have hdb2 : ∀ o2 ∈ os, dbHasId (fix_orphan_file o w).2.tasks o2.task_id = false := by
          intro o2 ho2
          rw [hrow, dbHasId_append, hdb o2 (List.mem_cons_of_mem o ho2)]
          have : ¬(o.task_id = o2.task_id) := hhead o2 ho2
          simp [dbHasId, this]
        have IH := applyOrphanFixes_spec os (fix_orphan_file o w).2 hdb2 htail
        refine ⟨⟨?_, ?_, ?_⟩, ?_, ?_⟩
        · rw [hsplit, IH.1.1, hstep]
        · rw [hsplit, IH.1.2.1, hstep]
        · rw [hsplit]
          exact hfiles1 ▸ IH.1.2.2
        · rcases IH.2.1 with ⟨new, hnew, hprops⟩
          refine ⟨⟨o.task_id, o.file_queue, none, none, 0, m.role,
              m.priority.getD ("P1"), m.branch.getD ("main"), m.blocked_by, m.project⟩ :: new,
            by rw [hsplit, hnew, hrow, List.append_assoc, List.singleton_append], ?_⟩
          intro t ht
          rcases List.mem_cons.1 ht with rfl | htt
          · exact ⟨⟨o, List.mem_cons_self o os, rfl, rfl⟩, rfl, rfl⟩
          · rcases hprops t htt with ⟨⟨o2, ho2, hto⟩, hcb, hac⟩
            exact ⟨⟨o2, List.mem_cons_of_mem o ho2, hto⟩, hcb, hac⟩
        · intro o2 ho2 e2 hent2
          rcases List.mem_cons.1 ho2 with rfl | ho2t
          · rw [hent0] at hent2
            cases hent2
            refine ⟨fun _ => ?_, fun hnone => absurd hparse (by rw [hnone]; simp)⟩
            rw [hsplit]
            rcases IH.2.1 with ⟨new, hnew, _⟩
            rw [hnew, dbHasId_append, hrow, dbHasId_append]
            have : dbHasId
                [(⟨o2.task_id, o2.file_queue, none, none, 0, m.role,
                  m.priority.getD ("P1"), m.branch.getD ("main"), m.blocked_by,
                  m.project⟩ : Task)] o2.task_id = true := by
              simp [dbHasId]
            rw [this]
            simp
          · have hent2b : getEntry (fix_orphan_file o w).2.files o2.file_queue o2.task_id =
                some e2 := by rw [hfiles1]; exact hent2
            have := IH.2.2 o2 ho2t e2 hent2b
            rw [hsplit]
            exact this

/-- Characterization of a detected mismatch: it comes from a discovery
binding whose file queue differs from the dict queue and whose file is
old enough. -/
theorem mismatch_mem_spec {a : Int} {w : World} {i : FileMismatch}
    (h : i ∈ detect_file_db_mismatches a w) :
    ∃ p ∈ find_all_task_files w.files, i.task_id = p.1 ∧ i.file_queue = p.2.1 ∧
      dbQueue w.tasks p.1 = some i.db_queue ∧ i.file_queue ≠ i.db_queue ∧
      a ≤ get_file_age_seconds w.now p.2.2 := by
  rcases List.mem_filterMap.1 h with ⟨p, hp, hf⟩
  refine ⟨p, hp, ?_⟩
  split at hf
  · exact absurd hf (by simp)
  · split at hf
    · exact absurd hf (by simp)
    · split at hf
      · rename_i dq hdq hne hage
        cases hf
        exact ⟨rfl, rfl, hdq, fun hc => hne hc, hage⟩
      · exact absurd hf (by simp)

/-- Introduction rule for a detected mismatch. -/
theorem mismatch_mem_intro {a : Int} {w : World} {p : String × String × MFile} {dq : String}
    (hp : p ∈ find_all_task_files w.files)
    (hdq : dbQueue w.tasks p.1 = some dq) (hne : ¬(p.2.1 = dq))
    (hage : a ≤ get_file_age_seconds w.now p.2.2) :
    (⟨p.1, dq, p.2.1, get_file_age_seconds w.now p.2.2⟩ : FileMismatch) ∈
      detect_file_db_mismatches a w := by
  refine List.mem_filterMap.2 ⟨p, hp, ?_⟩
  rw [hdq]
  simp only [hne, if_false, if_neg hne, if_pos hage]

/-- Characterization of a detected orphan. -/
theorem orphan_mem_spec {a : Int} {w : World} {o : OrphanFile}
    (h : o ∈ detect_orphan_files a w) :
    ∃ p ∈ find_all_task_files w.files, o.task_id = p.1 ∧ o.file_queue = p.2.1 ∧
      dbHasId w.tasks p.1 = false ∧ a ≤ get_file_age_seconds w.now p.2.2 := by
  rcases List.mem_filterMap.1 h with ⟨p, hp, hf⟩
  refine ⟨p, hp, ?_⟩
  split at hf
  · exact absurd hf (by simp)
  · split at hf
    · rename_i hdb hage
      cases hf
      exact ⟨rfl, rfl, by simpa using hdb, hage⟩
    · exact absurd hf (by simp)

/-- Introduction rule for a detected orphan. -/
theorem orphan_mem_intro {a : Int} {w : World} {p : String × String × MFile}
    (hp : p ∈ find_all_task_files w.files)
    (hdb : dbHasId w.tasks p.1 = false)
    (hage : a ≤ get_file_age_seconds w.now p.2.2) :
    (⟨p.1, p.2.1, get_file_age_seconds w.now p.2.2⟩ : OrphanFile) ∈
      detect_orphan_files a w := by
  refine List.mem_filterMap.2 ⟨p, hp, ?_⟩
  rw [hdb]
  simp only [Bool.false_eq_true, if_false, if_pos hage]

/-- Emptiness criterion for the mismatch detector. -/
theorem detect_mismatch_eq_nil {a : Int} {w : World}
    (h : ∀ p ∈ find_all_task_files w.files, ∀ dq, dbQueue w.tasks p.1 = some dq →
      p.2.1 = dq ∨ get_file_age_seconds w.now p.2.2 < a) :
    detect_file_db_mismatches a w = [] := by
  rw [detect_file_db_mismatches, List.filterMap_eq_nil_iff]
  intro p hp
  cases hdq : dbQueue w.tasks p.1 with
  | none => simp
  | some dq =>
    rcases h p hp dq hdq with heq | hage
    · simp [heq]
    · by_cases heq2 : p.2.1 = dq
      · simp [heq2]
      · simp [heq2, not_le.2 hage]

/-- Emptiness criterion for the orphan detector. -/
theorem detect_orphan_eq_nil {a : Int} {w : World}
    (h : ∀ p ∈ find_all_task_files w.files,
      dbHasId w.tasks p.1 = true ∨ get_file_age_seconds w.now p.2.2 < a) :
    detect_orphan_files a w = [] := by
  rw [detect_orphan_files, List.filterMap_eq_nil_iff]
  intro p hp
  rcases h p hp with hdb | hage
  · simp [hdb]
  · by_cases hdb2 : dbHasId w.tasks p.1 = true
    · simp [hdb2]
    · simp [hdb2, not_le.2 hage]

/-- Pairwise relations survive filterMap when the function transports
them. -/
theorem pairwise_filterMap {α β : Type} (f : α → Option β) {R : α → α → Prop}
    {S : β → β → Prop}
    (h : ∀ a b, R a b → ∀ x y, f a = some x → f b = some y → S x y) :
    ∀ {l : List α}, l.Pairwise R → (l.filterMap f).Pairwise S := by
  intro l hl
  induction hl with
  | nil => simp
  | @cons a l2 hhead htail ih =>
    rw [List.filterMap_cons]
    cases hf : f a with
    | none => exact ih
    | some x =>
      refine List.pairwise_cons.2 ⟨?_, ih⟩
      intro y hy
      rcases List.mem_filterMap.1 hy with ⟨b, hb, hfb⟩
      exact h a b (hhead b hb) x y hf hfb

/-- Detected mismatches carry pairwise distinct task ids. -/
theorem mismatches_pairwise (a : Int) (w : World) :
    (detect_file_db_mismatches a w).Pairwise (fun i j => i.task_id ≠ j.task_id) := by
  refine pairwise_filterMap _ ?_ (pairwise_findAllGo ALL_QUEUE_DIRS [] (by simp))
  intro p q hpq i j hi hj
  have hip : i.task_id = p.1 := by
    split at hi
    · exact absurd hi (by simp)
    · split at hi
      · exact absurd hi (by simp)
      · split at hi
        · cases hi; rfl
        · exact absurd hi (by simp)
  have hjq : j.task_id = q.1 := by
    split at hj
    · exact absurd hj (by simp)
    · split at hj
      · exact absurd hj (by simp)
      · split at hj
        · cases hj; rfl
        · exact absurd hj (by simp)
  rw [hip, hjq]
  exact hpq

/-- Detected orphans carry pairwise distinct task ids. -/
theorem orphans_pairwise (a : Int) (w : World) :
    (detect_orphan_files a w).Pairwise (fun i j => i.task_id ≠ j.task_id) := by
  refine pairwise_filterMap _ ?_ (pairwise_findAllGo ALL_QUEUE_DIRS [] (by simp))
  intro p q hpq i j hi hj
  have hip : i.task_id = p.1 := by
    split at hi
    · exact absurd hi (by simp)
    · split at hi
      · cases hi; rfl
      · exact absurd hi (by simp)
  have hjq : j.task_id = q.1 := by
    split at hj
    · exact absurd hj (by simp)
    · split at hj
      · cases hj; rfl
      · exact absurd hj (by simp)
  rw [hip, hjq]
  exact hpq

/-- Two entries of a tid-distinct filesystem with the same task id are
the same entry. -/
theorem tid_unique {fs : List FEntry}
    (hp : fs.Pairwise (fun a b => a.tid ≠ b.tid)) :
    ∀ {e1 e2 : FEntry}, e1 ∈ fs → e2 ∈ fs → e1.tid = e2.tid → e1 = e2 := by
  induction fs with
  | nil => intro e1 e2 h1 _ _; exact absurd h1 (List.not_mem_nil e1)
  | cons x fs ih =>
    intro e1 e2 h1 h2 ht
    rcases List.pairwise_cons.1 hp with ⟨hx, hfs⟩
    rcases List.mem_cons.1 h1 with rfl | h1t
    · rcases List.mem_cons.1 h2 with rfl | h2t
      · rfl
      · exact absurd ht (hx e2 h2t)
    · rcases List.mem_cons.1 h2 with rfl | h2t
      · exact absurd ht.symm (hx e1 h1t)
      · exact ih hfs h1t h2t ht

/-- A lookup hit is a member binding. -/
theorem dlookup_mem {m : List (String × String × MFile)} {k : String}
    {v : String × MFile} (h : dlookup m k = some v) : (k, v) ∈ m := by
  rw [dlookup] at h
  cases hfind : m.find? (fun p => p.1 = k) with
  | none => rw [hfind] at h; exact absurd h (by simp)
  | some p =>
    rw [hfind] at h
    have hk : p.1 = k := by simpa using List.find?_some hfind
    have hv : p.2 = v := by simpa using h
    have : p = (k, v) := by
      rcases p with ⟨p1, p2⟩
      dsimp at hk hv
      rw [hk, hv]
    exact this ▸ List.mem_of_find?_eq_some hfind

/-- Over a tid-distinct filesystem, every entry in a queue directory is
the binding chosen by the discovery scan. -/
theorem find_all_binding_of_entry {fs : List FEntry}
    (H1 : fs.Pairwise (fun a b => a.tid ≠ b.tid)) {e : FEntry}
    (he : e ∈ fs) (hdir : e.dir ∈ ALL_QUEUE_DIRS) :
    (e.tid, e.dir, e.file) ∈ find_all_task_files fs := by
  cases hs : dlookup (find_all_task_files fs) e.tid with
  | none =>
    rw [dlookup_find_all] at hs
    exact absurd hdir (scanChoice_none hs e he rfl)
  | some v =>
    have hmem := dlookup_mem hs
    rcases mem_find_all_task_files hmem with ⟨e2, he2, _, hpe⟩
    have htid : e2.tid = e.tid := by
      have : (e.tid, v).1 = e2.tid := by rw [hpe]
      exact this.symm
    have : e2 = e := tid_unique H1 he2 he htid
    rw [this] at hpe
    have : v = (e.dir, e.file) := by
      have := congrArg Prod.snd hpe
      simpa using this
    rw [this] at hmem
    exact hmem

/-- Generic membership characterization of the zombie detector, keyed
by task id. -/
theorem zombie_mem_iff (ch ih : Int) (w : World) (tid : String) :
    (∃ z ∈ detect_zombie_claims ch ih w, z.task_id = tid) ↔
      ∃ t ∈ w.tasks, t.id = tid ∧ t.queue = "claimed" ∧
        ∃ a ts ct, t.claimed_by = some a ∧ t.claimed_at = some ts ∧
          ts.parsed = some ct ∧ ch * 3600 ≤ w.now - ct ∧
          ((agentActivity w a).2 = none ∨
            ∃ s, (agentActivity w a).2 = some s ∧ ih * 3600 ≤ s) := by
  constructor
  · rintro ⟨z, hz, rfl⟩
    rcases List.mem_filterMap.1 hz with ⟨t, ht, hf⟩
    split at hf
    · rename_i hq
      split at hf
      · rename_i a ts hcb hca
        split at hf
        · exact absurd hf (by simp)
        · rename_i ct hp
          split at hf
          · exact absurd hf (by simp)
          · rename_i hdur
            split at hf
            · rename_i lastA hact
              cases hf
              exact ⟨t, ht, rfl, hq, a, ts, ct, hcb, hca, hp, by omega,
                Or.inl (by rw [hact])⟩
            · rename_i lastA s hact
              split at hf
              · rename_i hs
                cases hf
                exact ⟨t, ht, rfl, hq, a, ts, ct, hcb, hca, hp, by omega,
                  Or.inr ⟨s, by rw [hact], hs⟩⟩
              · exact absurd hf (by simp)
      · exact absurd hf (by simp)
    · exact absurd hf (by simp)
  · rintro ⟨t, ht, rfl, hq, a, ts, ct, hcb, hca, hp, hdur, hrest⟩
    rcases hact : agentActivity w a with ⟨lastA, inact⟩
    have hndur : ¬(w.now - ct < ch * 3600) := by omega
    rcases hrest with hnone | ⟨s, hs, hsge⟩
    · rw [hact] at hnone
      simp only at hnone
      refine ⟨⟨t.id, a, ts.raw, w.now - ct, lastA, none⟩,
        List.mem_filterMap.2 ⟨t, ht, ?_⟩, rfl⟩
      simp [hq, hcb, hca, hp, hndur, hact, hnone]
    · rw [hact] at hs
      simp only at hs
      subst hs
      refine ⟨⟨t.id, a, ts.raw, w.now - ct, lastA, some s⟩,
        List.mem_filterMap.2 ⟨t, ht, ?_⟩, rfl⟩
      simp [hq, hcb, hca, hp, hndur, hact, hsge]

/-- Agent activity depends only on the agent records and the clock. -/
theorem agentActivity_congr {w1 w2 : World} (hag : w1.agents = w2.agents)
    (hn : w1.now = w2.now) (a : String) : agentActivity w1 a = agentActivity w2 a := by
  unfold agentActivity
  rw [hag, hn]

/-- A path with no entry stays empty through the cleanup loop. -/
theorem staleGo_none_stable :
    ∀ (ts : List Task) (w : World) (d tid : String),
      getEntry w.files d tid = none →
      getEntry (staleGo ts w).2.files d tid = none
  | [], _, _, _, h => h
  | t :: ts, w, d, tid, h => by
    have hstep : getEntry (staleStep t w).2.files d tid = none := by
      cases hent : getEntry w.files t.queue t.id with
      | none => rw [staleStep_none hent]; exact h
      | some ef =>
        by_cases hmf : hasFailedSub ef.file.lines = true
        · have hfiles : (staleStep t w).2.files = writeFileAt w.files t.queue t.id
              (removeFailedSections ef.file.lines) w.now := by
            rw [staleStep_write hent hmf]
          rw [hfiles, getEntry_writeFileAt, h]
          rfl
        · have hmf2 : hasFailedSub ef.file.lines = false := by simpa using hmf
          rw [staleStep_clean hent hmf2]
          exact h
    have := staleGo_none_stable ts (staleStep t w).2 d tid hstep
    simpa [staleGo] using this

/-- C7 amended: over a tid-distinct filesystem whose FAILED_AT markers
all sit inside removable sections (stripping leaves no marker), and
when no detected mismatch has its file in the claimed directory, a
second run of the auto-fixes right after a first one applies zero
file-DB syncs, zero orphan registrations and zero stale-error
cleanups, and every zombie claim it escalates was already escalated by
the first run. -/
theorem auto_fixes_idempotent_amended (w0 : World)
    (H1 : w0.files.Pairwise (fun a b => a.tid ≠ b.tid))
    (H2 : ∀ e ∈ w0.files, hasFailedSub (removeFailedSections e.file.lines) = false)
    (H3 : ∀ i ∈ detect_file_db_mismatches MIN_FILE_AGE_SECONDS w0,
      i.file_queue ≠ "claimed") :
    (run_auto_fixes (run_auto_fixes w0).2).1.file_db_syncs = 0 ∧
    (run_auto_fixes (run_auto_fixes w0).2).1.orphans_registered = 0 ∧
    (run_auto_fixes (run_auto_fixes w0).2).1.stale_errors_cleaned = 0 ∧
    (∀ tid, (∃ z ∈ detect_zombie_claims ZOMBIE_CLAIM_HOURS AGENT_INACTIVE_HOURS
        (run_auto_fixes w0).2, z.task_id = tid) →
      ∃ z ∈ detect_zombie_claims ZOMBIE_CLAIM_HOURS AGENT_INACTIVE_HOURS w0,
        z.task_id = tid) := by
  set M0 := detect_file_db_mismatches MIN_FILE_AGE_SECONDS w0 with hM0
  set O0 := detect_orphan_files MIN_FILE_AGE_SECONDS w0 with hO0
  set Z0 := detect_zombie_claims ZOMBIE_CLAIM_HOURS AGENT_INACTIVE_HOURS w0 with hZ0
  set wA := (applyMismatchFixes M0 w0).2 with hwA
  set wB := (applyOrphanFixes O0 wA).2 with hwB
  set wC := (fix_stale_errors wB).2 with hwC
  set W1 := escalate_zombie_claims Z0 wC with hW1
  have hrun : (run_auto_fixes w0).2 = W1 := rfl
  rw [hrun]
  have hexM : ∀ i ∈ M0, fileExistsAt w0.files i.file_queue i.task_id = true :=
    fun i hi => detect_mismatch_file_exists hi
  have APM := applyMismatchFixes_spec M0 w0 hexM (mismatches_pairwise _ w0)
  have hdbO : ∀ o ∈ O0, dbHasId wA.tasks o.task_id = false := by
    intro o ho
    rw [hwA, APM.2.2.1]
    rcases orphan_mem_spec ho with ⟨p, hp, hid, _, hdb, _⟩
    rw [hid]
    exact hdb
  have APO := applyOrphanFixes_spec O0 wA hdbO (orphans_pairwise _ w0)
  rcases APO.2.1 with ⟨newRows, hnewEq, hnewProps⟩
  have hW1tasks : W1.tasks = wB.tasks := (staleGo_store (eligibleRetried wB.tasks) wB).1
  have hW1files : W1.files = (staleGo (eligibleRetried wB.tasks) wB).2.files := rfl
  have hBnow : wB.now = w0.now := by
    rw [hwB, APO.1.2.1, hwA, APM.1.2.2.1]
  have hW1now : W1.now = w0.now := by
    have h1 : W1.now = wB.now := (staleGo_store (eligibleRetried wB.tasks) wB).2.2.2.2
    rw [h1, hBnow]
  have hW1agents : W1.agents = w0.agents := by
    have h1 : W1.agents = wB.agents := (staleGo_store (eligibleRetried wB.tasks) wB).2.2.1
    rw [h1, hwB, APO.1.1, hwA, APM.1.2.1]
  have hsubB : List.Sublist wB.files w0.files := by
    have := APO.1.2.2
    rw [hwA, APM.1.1] at this
    exact this
  have hpwB : wB.files.Pairwise (fun a b => a.tid ≠ b.tid) :=
    List.Pairwise.sublist hsubB H1
  have hpwBp : wB.files.Pairwise (fun a b => ¬(a.dir = b.dir ∧ a.tid = b.tid)) :=
    hpwB.imp (fun h hc => h hc.2)
  have hdbBA : ∀ tid, dbHasId w0.tasks tid = true →
      dbQueue wB.tasks tid = dbQueue wA.tasks tid := by
    intro tid hdb
    rw [hnewEq, dbQueue_append]
    cases hq : dbQueue newRows tid with
    | none => rfl
    | some q =>
      rcases dbQueue_some_row hq with ⟨row, hrowm, hrid, _⟩
      rcases (hnewProps row hrowm).1 with ⟨o, ho, hoid, _⟩
      rcases orphan_mem_spec ho with ⟨p, _, hid2, _, hdbF, _⟩
      rw [← hid2, ← hoid, hrid] at hdbF
      rw [hdbF] at hdb
      exact absurd hdb (by simp)
  have hEntry : ∀ p ∈ find_all_task_files W1.files, ∃ eB ∈ wB.files,
      eB ∈ w0.files ∧ p.1 = eB.tid ∧ p.2.1 = eB.dir ∧ eB.dir ∈ ALL_QUEUE_DIRS ∧
      (p.2.2 = eB.file ∨ (p.2.2.mtime = w0.now ∧
        ∃ t ∈ eligibleRetried wB.tasks, t.queue = eB.dir ∧ t.id = eB.tid)) := by
    intro p hp
    rcases mem_find_all_task_files hp with ⟨e1, he1, hdir1, hpe⟩
    rw [hW1files] at he1
    rcases staleGo_files_mem _ wB hpwBp e1 he1 with ⟨eB, hmemB, hd, ht, hc⟩
    refine ⟨eB, hmemB, List.Sublist.mem hmemB hsubB, ?_, ?_, ?_, ?_⟩
    · rw [hpe, ← ht]
    · rw [hpe, ← hd]
    · rw [← hd]
      exact hdir1
    · rcases hc with rfl | ⟨hl, hmt, tgt⟩
      · left
        rw [hpe]
      · right
        refine ⟨?_, tgt⟩
        rw [hpe]
        rw [hmt, hBnow]
  have hM1 : detect_file_db_mismatches MIN_FILE_AGE_SECONDS W1 = [] := by
    apply detect_mismatch_eq_nil
    intro p hp dq hdq
    rcases hEntry p hp with ⟨eB, hmemB, hmem0, hid, hdir, hdirs, hcont⟩
    rw [hW1tasks] at hdq
    have hage_of : (p.2.2 = eB.file ∨ p.2.2.mtime = w0.now) →
        ¬(MIN_FILE_AGE_SECONDS ≤ get_file_age_seconds w0.now eB.file) →
        get_file_age_seconds W1.now p.2.2 < MIN_FILE_AGE_SECONDS := by
      intro hcc hna
      rw [get_file_age_seconds] at hna ⊢
      rw [hW1now]
      rcases hcc with hfe | hmt
      · rw [hfe]
        omega
      · rw [hmt]
        rw [show MIN_FILE_AGE_SECONDS = (300 : Int) from rfl]
        omega
    by_cases hdb0 : dbHasId w0.tasks p.1 = true
    · have hq0 : ∃ q0, dbQueue w0.tasks p.1 = some q0 := by
        cases hq : dbQueue w0.tasks p.1 with
        | none =>
          have := (dbHasId_false_iff w0.tasks p.1).2 hq
          rw [this] at hdb0
          exact absurd hdb0 (by simp)
        | some q0 => exact ⟨q0, rfl⟩
      rcases hq0 with ⟨q0, hq0⟩
      rw [hdbBA p.1 hdb0, hwA, APM.2.1 p.1] at hdq
      cases hfind : M0.find? (fun i => i.task_id = p.1) with
      | some i =>
        rw [hfind, hq0] at hdq
        have hdqi : dq = i.file_queue := by simpa using hdq.symm
        have hiM : i ∈ M0 := List.mem_of_find?_eq_some hfind
        have hit : i.task_id = p.1 := by simpa using List.find?_some hfind
        rcases mismatch_mem_spec hiM with ⟨p0, hp0, hid0, hfq0, _, _, _⟩
        rcases mem_find_all_task_files hp0 with ⟨eS, heS, _, hpeS⟩
        have hp01 : p0.1 = eS.tid := by rw [hpeS]
        have hp02 : p0.2.1 = eS.dir := by rw [hpeS]
        have heSB : eS = eB := by
          refine tid_unique H1 heS hmem0 ?_
          rw [← hp01, ← hid0, hit, hid]
        left
        rw [hdir, hdqi, hfq0, hp02, heSB]
      | none =>
        rw [hfind, hq0] at hdq
        have hdq0 : dq = q0 := by simpa using hdq.symm
        have hbind : (eB.tid, eB.dir, eB.file) ∈ find_all_task_files w0.files :=
          find_all_binding_of_entry H1 hmem0 hdirs
        by_cases hque : eB.dir = q0
        · left
          rw [hdir, hque, hdq0]
        · by_cases hage0 : MIN_FILE_AGE_SECONDS ≤ get_file_age_seconds w0.now eB.file
          · exfalso
            have hq0b : dbQueue w0.tasks (eB.tid, eB.dir, eB.file).1 = some q0 := by
              rw [show (eB.tid, eB.dir, eB.file).1 = eB.tid from rfl, ← hid]
              exact hq0
            have hmemM : (⟨eB.tid, q0, eB.dir,
                get_file_age_seconds w0.now eB.file⟩ : FileMismatch) ∈ M0 :=
              mismatch_mem_intro hbind hq0b (by simpa using hque) hage0
            have := List.find?_eq_none.1 hfind _ hmemM
            rw [decide_eq_true_eq] at this
            exact this hid.symm
          · right
            rcases hcont with hfe | ⟨hmt, _⟩
            · exact hage_of (Or.inl hfe) hage0
            · exact hage_of (Or.inr hmt) hage0
    · have hdb0f : dbHasId w0.tasks p.1 = false := by simpa using hdb0
      rw [hnewEq, dbQueue_append] at hdq
      cases hqn : dbQueue newRows p.1 with
      | none =>
        rw [hqn] at hdq
        have hA : dbHasId wA.tasks p.1 = false := by
          rw [hwA, APM.2.2.1]
          exact hdb0f
        rw [(dbHasId_false_iff _ _).1 hA] at hdq
        exact absurd hdq (by simp)
      | some q =>
        rw [hqn] at hdq
        have hdqq : dq = q := by simpa using hdq.symm
        rcases dbQueue_some_row hqn with ⟨row, hrowm, hrid, hrq⟩
        rcases (hnewProps row hrowm).1 with ⟨o, ho, hoid, hoq⟩
        rcases orphan_mem_spec ho with ⟨p0, hp0, hid0, hfq0, _, _⟩
        rcases mem_find_all_task_files hp0 with ⟨eS, heS, _, hpeS⟩
        have hp01 : p0.1 = eS.tid := by rw [hpeS]
        have hp02 : p0.2.1 = eS.dir := by rw [hpeS]
        have heSB : eS = eB := by
          refine tid_unique H1 heS hmem0 ?_
          rw [← hp01, ← hid0, ← hoid, hrid, hid]
        left
        rw [hdir, hdqq, ← hrq, hoq, hfq0, hp02, heSB]
  have hO1 : detect_orphan_files MIN_FILE_AGE_SECONDS W1 = [] := by
    apply detect_orphan_eq_nil
    intro p hp
    rcases hEntry p hp with ⟨eB, hmemB, hmem0, hid, hdir, hdirs, hcont⟩
    by_cases hdb1 : dbHasId W1.tasks p.1 = true
    · exact Or.inl hdb1
    · have hdbB : dbHasId wB.tasks p.1 = false := by
        rw [← hW1tasks]
        simpa using hdb1
      have hcontu : p.2.2 = eB.file := by
        rcases hcont with hfe | ⟨_, t, htm, htq, hti⟩
        · exact hfe
        · exfalso
          have htB : t ∈ wB.tasks := (List.mem_filter.1 htm).1
          have : dbHasId wB.tasks p.1 = true :=
            List.any_eq_true.2 ⟨t, htB, by simp [hti, hid]⟩
          rw [this] at hdbB
          exact absurd hdbB (by simp)
      have hdbAf : dbHasId wA.tasks p.1 = false := by
        rw [hnewEq, dbHasId_append] at hdbB
        rcases Bool.or_eq_false_iff.1 hdbB with ⟨h1, _⟩
        exact h1
      have hdb0f : dbHasId w0.tasks p.1 = false := by
        rw [hwA, APM.2.2.1] at hdbAf
        exact hdbAf
      have hbind : (eB.tid, eB.dir, eB.file) ∈ find_all_task_files w0.files :=
        find_all_binding_of_entry H1 hmem0 hdirs
      by_cases hage0 : MIN_FILE_AGE_SECONDS ≤ get_file_age_seconds w0.now eB.file
      · exfalso
        have hdbb : dbHasId w0.tasks (eB.tid, eB.dir, eB.file).1 = false := by
          rw [show (eB.tid, eB.dir, eB.file).1 = eB.tid from rfl, ← hid]
          exact hdb0f
        have hoM : (⟨eB.tid, eB.dir, get_file_age_seconds w0.now eB.file⟩ : OrphanFile) ∈ O0 :=
          orphan_mem_intro hbind hdbb hage0
        have hentB : ∃ e2, getEntry wA.files eB.dir eB.tid = some e2 := by
          rw [hwA, APM.1.1]
          cases hge : getEntry w0.files eB.dir eB.tid with
          | none =>
            exfalso
            have : fileExistsAt w0.files eB.dir eB.tid = true :=
              List.any_eq_true.2 ⟨eB, hmem0, by simp⟩
            rw [fileExistsAt] at this
            rcases List.any_eq_true.1 this with ⟨e3, he3, hpe3⟩
            have : (getEntry w0.files eB.dir eB.tid).isSome := by
              rw [getEntry, List.find?_isSome]
              exact ⟨e3, he3, hpe3⟩
            rw [hge] at this
            exact absurd this (by simp)
          | some e2 => exact ⟨e2, rfl⟩
        rcases hentB with ⟨e2, hent2⟩
        have he2mem : e2 ∈ w0.files := by
          have := getEntry_mem hent2
          rw [hwA, APM.1.1] at this
          exact this
        have he2path := getEntry_path hent2
        have he2B : e2 = eB := tid_unique H1 he2mem hmem0 he2path.2
        have := APO.2.2 ⟨eB.tid, eB.dir, get_file_age_seconds w0.now eB.file⟩ hoM e2 hent2
        cases hpar : parse_task_metadata e2.file.lines with
        | some m =>
          have h1 := this.1 (by rw [hpar]; simp)
          rw [← hwB] at h1
          have : dbHasId wB.tasks p.1 = true := by
            rw [hid]
            exact h1
          rw [this] at hdbB
          exact absurd hdbB (by simp)
        | none =>
          have h2 := this.2 hpar eB (by rw [← hwB]; exact hmemB)
          exact h2 ⟨rfl, rfl⟩
      · right
        rw [get_file_age_seconds, hW1now, hcontu]
        rw [get_file_age_seconds] at hage0
        omega
  have hstale : fix_stale_errors W1 = (0, W1) := by
    unfold fix_stale_errors
    apply staleGo_noop
    intro t ht
    rw [hW1tasks] at ht
    cases hget : getEntry W1.files t.queue t.id with
    | none => exact staleStep_none hget
    | some ef =>
      cases hgB : getEntry wB.files t.queue t.id with
      | none =>
        have hst := staleGo_none_stable (eligibleRetried wB.tasks) wB t.queue t.id hgB
        rw [← hW1files] at hst
        rw [hst] at hget
        exact absurd hget (by simp)
      | some eB2 =>
        rcases staleGo_track (eligibleRetried wB.tasks) wB t.queue t.id eB2 hgB with
          ⟨e2p, hge2, hd2, ht2, hcontent, hfinal⟩
        have hge2b : getEntry W1.files t.queue t.id = some e2p := by
          rw [hW1files]
          exact hge2
        have hef : ef = e2p := by
          rw [hget] at hge2b
          exact Option.some.inj hge2b
        have hmem0 : eB2 ∈ w0.files := List.Sublist.mem (getEntry_mem hgB) hsubB
        have hH2 := H2 eB2 hmem0
        by_cases hm : hasFailedSub eB2.file.lines = true
        · have hfl := hfinal ⟨t, ht, rfl, rfl⟩ hm
          have hok : hasFailedSub ef.file.lines = false := by
            rw [hef, hfl]
            exact hH2
          exact staleStep_clean hget hok
        · have hm2 : hasFailedSub eB2.file.lines = false := by simpa using hm
          rcases hcontent with heq | ⟨hl, _⟩
          · have hok : hasFailedSub ef.file.lines = false := by
              rw [hef, heq]
              exact hm2
            exact staleStep_clean hget hok
          · have hok : hasFailedSub ef.file.lines = false := by
              rw [hef, hl]
              exact hH2
            exact staleStep_clean hget hok
  clear_value W1
  refine ⟨?_, ?_, ?_, ?_⟩
  · show (applyMismatchFixes (detect_file_db_mismatches MIN_FILE_AGE_SECONDS W1) W1).1 = 0
    rw [hM1]
    rfl
  · show (applyOrphanFixes (detect_orphan_files MIN_FILE_AGE_SECONDS W1)
      (applyMismatchFixes (detect_file_db_mismatches MIN_FILE_AGE_SECONDS W1) W1).2).1 = 0
    rw [hM1, hO1]
    rfl
  · show (fix_stale_errors (applyOrphanFixes (detect_orphan_files MIN_FILE_AGE_SECONDS W1)
      (applyMismatchFixes (detect_file_db_mismatches MIN_FILE_AGE_SECONDS W1) W1).2).2).1 = 0
    rw [hM1, hO1]
    show (fix_stale_errors W1).1 = 0
    rw [hstale]
  · intro tid hz
    rcases (zombie_mem_iff ZOMBIE_CLAIM_HOURS AGENT_INACTIVE_HOURS W1 tid).1 hz with
      ⟨t, htm, hidt, hq, a, ts2, ct, hcb, hca, hpar, hdur, hrest⟩
    rw [hW1tasks, hnewEq] at htm
    rcases List.mem_append.1 htm with htA | htN
    · rcases APM.2.2.2 t (by rw [← hwA]; exact htA) with ⟨t1, ht1, hcase⟩
      rcases hcase with rfl | ⟨i, hiM, rfl⟩
      · refine (zombie_mem_iff ZOMBIE_CLAIM_HOURS AGENT_INACTIVE_HOURS w0 tid).2
          ⟨t, ht1, hidt, hq, a, ts2, ct, hcb, hca, hpar, ?_, ?_⟩
        · rw [← hW1now]
          exact hdur
        · have hAA : agentActivity W1 a = agentActivity w0 a :=
            agentActivity_congr hW1agents hW1now a
          rw [← hAA]
          exact hrest
      · exfalso
        have : i.file_queue = "claimed" := hq
        exact H3 i hiM this
    · exfalso
      have := (hnewProps t htN).2.1
      rw [hcb] at this
      exact absurd this (by simp)

/-- C7 counterexample: the auto-fix pass is not idempotent; the second
run still counts one stale-error cleanup, because the FAILED_AT
substring of the file of s7 lacks the colon that the removal pattern
requires, so every run rewrites the file and counts it as fixed. -/
theorem auto_fixes_second_run_counterexample :
    (run_auto_fixes (run_auto_fixes W7x).2).1.stale_errors_cleaned = 1 := by decide

/-- Witness for the amended C7 at W7w: after a first pass that applied
one fix of each kind, the second pass applies no sync, registration or
cleanup, and its one escalated zombie z7 was already a zombie claim of
the initial world. -/
theorem auto_fixes_idempotent_amended_witness :
    (run_auto_fixes (run_auto_fixes W7w).2).1.file_db_syncs = 0 ∧
    (run_auto_fixes (run_auto_fixes W7w).2).1.orphans_registered = 0 ∧
    (run_auto_fixes (run_auto_fixes W7w).2).1.stale_errors_cleaned = 0 ∧
    (∃ z ∈ detect_zombie_claims ZOMBIE_CLAIM_HOURS AGENT_INACTIVE_HOURS W7w,
      z.task_id = "z7") :=
  ⟨(auto_fixes_idempotent_amended W7w (by decide) (by decide) (by decide)).1,
   (auto_fixes_idempotent_amended W7w (by decide) (by decide) (by decide)).2.1,
   (auto_fixes_idempotent_amended W7w (by decide) (by decide) (by decide)).2.2.1,
   (auto_fixes_idempotent_amended W7w (by decide) (by decide) (by decide)).2.2.2
     ("z7") (by decide)⟩

/-- Witness for C6 at concrete worlds: the reported mismatch and orphan
of W1x and W4x are at least the threshold old, and changing the mirror
files of W9x does not change its zombie claims. -/
theorem min_age_excludes_young_files_witness :
    MIN_FILE_AGE_SECONDS ≤ I1x.age_seconds ∧
    MIN_FILE_AGE_SECONDS ≤ I4a.age_seconds ∧
    detect_zombie_claims ZOMBIE_CLAIM_HOURS AGENT_INACTIVE_HOURS
      { W9x with files := [⟨"incoming", "y1", ⟨10700, []⟩⟩] } =
    detect_zombie_claims ZOMBIE_CLAIM_HOURS AGENT_INACTIVE_HOURS W9x :=
  ⟨(min_age_excludes_young_files W1x MIN_FILE_AGE_SECONDS ZOMBIE_CLAIM_HOURS
      AGENT_INACTIVE_HOURS).1 I1x (by decide),
   (min_age_excludes_young_files W4x MIN_FILE_AGE_SECONDS ZOMBIE_CLAIM_HOURS
      AGENT_INACTIVE_HOURS).2.1 I4a (by decide),
   (min_age_excludes_young_files W9x MIN_FILE_AGE_SECONDS ZOMBIE_CLAIM_HOURS
      AGENT_INACTIVE_HOURS).2.2 [⟨"incoming", "y1", ⟨10700, []⟩⟩]⟩

end Boxen
